import Mathlib

/-!
Verification of the massa node core against its specification.

This file shallowly embeds the parts of the source that the checked claims
are about:
* `massa-models/src/slot.rs` (`Slot`, ordering, `slots_since`, `get_next_slot`)
* `massa-async-pool/src/message.rs` (`AsyncMessage`, `compute_id`, the id order)
* `massa-execution-worker/src/active_history.rs` (`get_slot_index`, `truncate_from`)
* `massa-ledger-worker/src/ledger_db.rs` (hash XOR accumulator, `get_ledger_part`)
* `massa-execution-worker/src/context.rs` (`ExecutionContext`, snapshots)
* `massa-execution-worker/src/execution.rs` (operation / async message / slot execution,
  reward distribution, cursors)

Machine integers are modelled as `Nat` with explicit saturation or checked
bounds at `2^64 - 1` where the source uses `u64` arithmetic. External
primitives (BLAKE3, the WASM VM, UTF-8 validation) are universally
quantified function parameters, so every theorem holds for the real
primitives. Components of the repository whose sources are not available
(the speculative view buffers, `Amount`, `StreamingStep`, `KeySerializer`,
`get_prev_slot`, the byte-wise XOR on `Hash`) are modelled from the
specification, and marked as such in their doc comments.
-/

namespace Massa

/-- Largest value of a `u64`; `Amount` mantissas and gas counters saturate here. -/
def U64MAX : Nat := 2 ^ 64 - 1

/-- `Slot` from massa-models/src/slot.rs: a `(period, thread)` pair. -/
structure Slot where
  period : Nat
  thread : Nat
deriving DecidableEq, Repr

/-- The derived lexicographic strict order on `(period, thread)` used by
`impl Ord for Slot` (slot.rs lines 126-136), as a Boolean test. -/
def slotLtb (a b : Slot) : Bool :=
  a.period < b.period || (a.period == b.period && a.thread < b.thread)

/-- Non-strict counterpart of `slotLtb`. -/
def slotLeb (a b : Slot) : Bool :=
  slotLtb a b || a == b

/-- `Slot::to_bytes_key` (slot.rs lines 206-211): 8 big-endian period bytes
followed by the thread byte. The period bytes are modelled by their values. -/
def Slot.to_bytes_key (s : Slot) : List Nat :=
  [s.period / 2 ^ 56 % 256, s.period / 2 ^ 48 % 256, s.period / 2 ^ 40 % 256,
   s.period / 2 ^ 32 % 256, s.period / 2 ^ 24 % 256, s.period / 2 ^ 16 % 256,
   s.period / 2 ^ 8 % 256, s.period % 256, s.thread]

/-- `Slot::get_next_slot` (slot.rs lines 238-254): roll thread, then period;
fails on period overflow. -/
def Slot.get_next_slot (s : Slot) (thread_count : Nat) : Option Slot :=
  if s.thread + 1 ≥ thread_count then
    if s.period + 1 > U64MAX then none else some ⟨s.period + 1, 0⟩
  else
    some ⟨s.period, s.thread + 1⟩

/-- Modelled from the spec: `Slot::get_prev_slot` is called by
`execute_candidate_slot` but its body is not among the provided sources;
the spec (§3) makes `next` roll thread then period, so `prev` unrolls
thread then period and fails below slot (0,0). -/
def Slot.get_prev_slot (s : Slot) (thread_count : Nat) : Option Slot :=
  if s.thread = 0 then
    if s.period = 0 then none else some ⟨s.period - 1, thread_count - 1⟩
  else
    some ⟨s.period, s.thread - 1⟩

/-- `Slot::slots_since` (slot.rs lines 259-272): number of slots from `s` up to
`self`, erroring when `s` is in the future or on `u64` overflow of the
checked multiplication / addition. -/
def Slot.slots_since (self s : Slot) (thread_count : Nat) : Option Nat :=
  if slotLtb self s then none
  else
    let prod := (self.period - s.period) * thread_count
    if prod > U64MAX then none
    else
      let sum := prod + self.thread
      if sum > U64MAX then none
      else some (sum - s.thread)

/-- `Amount` (massa-models): modelled from the spec (§3, §6.2) since
amount.rs is not among the provided sources: a non-negative fixed-point
number held as a `u64` mantissa with saturating and checked arithmetic. -/
abbrev Amount := Nat

/-- `Amount::saturating_mul_u64`: mantissa product saturating at `u64::MAX`. -/
def Amount.saturating_mul_u64 (a : Amount) (x : Nat) : Amount :=
  min (a * x) U64MAX

/-- `Amount::saturating_add`: mantissa sum saturating at `u64::MAX`. -/
def Amount.saturating_add (a b : Amount) : Amount :=
  min (a + b) U64MAX

/-- `Amount::saturating_sub`: mantissa difference floored at zero. -/
def Amount.saturating_sub (a b : Amount) : Amount :=
  a - b

/-- `Amount::checked_div_u64`: `None` exactly when the divisor is zero. -/
def Amount.checked_div_u64 (a : Amount) (x : Nat) : Option Amount :=
  if x = 0 then none else some (a / x)

/-- `Amount::checked_mul_u64`: `None` on `u64` mantissa overflow. -/
def Amount.checked_mul_u64 (a : Amount) (x : Nat) : Option Amount :=
  if a * x > U64MAX then none else some (a * x)

/-- `Amount::checked_add`: `None` on `u64` mantissa overflow. -/
def Amount.checked_add (a b : Amount) : Option Amount :=
  if a + b > U64MAX then none else some (a + b)

/-- `Amount::checked_sub`: `None` on underflow. -/
def Amount.checked_sub (a b : Amount) : Option Amount :=
  if b > a then none else some (a - b)

/-- Addresses: 32-byte content hashes in the source. Modelled from the spec
(§3) as opaque numeric identifiers carrying `thread(addr) = hash byte mod T`. -/
abbrev Addr := Nat

/-- `Address::get_thread`, modelled from the spec: first hash byte modulo the
thread count. The address value stands for its first hash byte. -/
def Addr.get_thread (a : Addr) (thread_count : Nat) : Nat :=
  a % thread_count

/-- Block ids are content hashes; modelled by their byte representation. -/
abbrev BlockId := List Nat

/-- Operation ids are content hashes; modelled as opaque identifiers. -/
abbrev OperationId := Nat

/-- `AsyncMessage` from massa-async-pool/src/message.rs lines 173-211. -/
structure AsyncMessage where
  emission_slot : Slot
  emission_index : Nat
  sender : Addr
  destination : Addr
  handler : String
  max_gas : Nat
  gas_price : Amount
  coins : Amount
  validity_start : Slot
  validity_end : Slot
  data : List Nat
deriving DecidableEq, Repr

/-- `AsyncMessageId` (message.rs line 27): the triple
`(Reverse(max_gas * gas_price), emission_slot, emission_index)`.
The `fee` field carries the un-reversed product; the reversal lives in the
order `msgIdLtb` below. -/
structure AsyncMessageId where
  fee : Amount
  emission_slot : Slot
  emission_index : Nat
deriving DecidableEq, Repr

/-- `AsyncMessage::compute_id` (message.rs lines 216-222). -/
def AsyncMessage.compute_id (m : AsyncMessage) : AsyncMessageId :=
  ⟨m.gas_price.saturating_mul_u64 m.max_gas, m.emission_slot, m.emission_index⟩

/-- The derived lexicographic order on `(Reverse<Amount>, Slot, u64)`:
the first component is compared in reverse (higher fee products come first),
then the emission slot ascending, then the emission index ascending. -/
def msgIdLtb (x y : AsyncMessageId) : Bool :=
  y.fee < x.fee ||
    (x.fee == y.fee &&
      (slotLtb x.emission_slot y.emission_slot ||
        (x.emission_slot == y.emission_slot && x.emission_index < y.emission_index)))

/-! ## Execution context (massa-execution-worker/src/context.rs)

The four speculative views (`speculative_ledger.rs`, `speculative_async_pool.rs`,
`speculative_roll_state.rs`, `speculative_executed_ops.rs`) are repository code
whose sources are not under src/; following the spec (§4.2), each view is
modelled as its effective content (the view already composed over the final
state and the active history), which is exactly what the snapshot captures
and what `take()` hands to the execution output. -/

/-- Ledger entry as seen through the speculative ledger: balance and bytecode.
Modelled from the spec (§3 `LedgerEntry`); the datastore is not needed by any
claim and the VM oracle covers datastore mutations. -/
structure LedgerEntryM where
  balance : Amount
  bytecode : List Nat
deriving DecidableEq, Repr

/-- Association-list lookup (used for all keyed views). -/
def alGet {κ α : Type} [BEq κ] : List (κ × α) → κ → Option α
  | [], _ => none
  | (k0, v0) :: rest, k => if k0 == k then some v0 else alGet rest k

/-- Association-list update of an existing key (leaves the list unchanged when
the key is absent). -/
def alSet {κ α : Type} [BEq κ] : List (κ × α) → κ → α → List (κ × α)
  | [], _, _ => []
  | (k0, v0) :: rest, k, v =>
    if k0 == k then (k0, v) :: rest else (k0, v0) :: alSet rest k v

/-- Association-list insert-or-replace. -/
def alInsert {κ α : Type} [BEq κ] (l : List (κ × α)) (k : κ) (v : α) : List (κ × α) :=
  match alGet l k with
  | some _ => alSet l k v
  | none => l ++ [(k, v)]

/-- Speculative ledger content: effective `Addr → LedgerEntryM` view. -/
abbrev LedgerState := List (Addr × LedgerEntryM)

/-- `ExecutionStackElement` (massa-execution-exports): one call frame. -/
structure ExecutionStackElement where
  address : Addr
  coins : Amount
  owned_addresses : List Addr
  operation_datastore : Option (List (List Nat × List Nat))
deriving DecidableEq, Repr

/-- `SCOutputEvent` with its `EventExecutionContext` (massa-models), as
gathered by `ExecutionContext::event_create` (context.rs lines 757-771). -/
structure SCOutputEvent where
  slot : Slot
  block : Option BlockId
  call_stack : List Addr
  read_only : Bool
  index_in_slot : Nat
  origin_operation_id : Option OperationId
  is_final : Bool
  data : String
deriving DecidableEq, Repr

/-- Speculative roll-state buffer. Modelled from the spec (§3 RollState,
§4.6): roll counts, per-slot production statistics and deferred credits;
speculative_roll_state.rs is not among the provided sources. -/
structure PosState where
  roll_counts : List (Addr × Nat)
  production_stats : List (Addr × Slot × Option BlockId)
  deferred_credits : List (Slot × Addr × Amount)
deriving DecidableEq, Repr

/-- `ExecutionContext` (context.rs lines 72-129): the per-slot transactional
scope. The first four fields are the speculative views (staged state),
the rest mirror the Rust struct field for field. -/
structure ExecutionContext where
  ledger_changes : LedgerState
  async_pool_changes : List (AsyncMessageId × AsyncMessage)
  pos_changes : PosState
  executed_ops : List (OperationId × Slot)
  max_gas : Nat
  gas_price : Amount
  slot : Slot
  created_addr_index : Nat
  created_event_index : Nat
  created_message_index : Nat
  opt_block_id : Option BlockId
  stack : List ExecutionStackElement
  read_only : Bool
  events : List SCOutputEvent
  unsafe_rng : Nat
  creator_address : Option Addr
  origin_operation_id : Option OperationId
deriving DecidableEq, Repr

/-- `ExecutionContextSnapshot` (context.rs lines 40-67). Note that it carries
`created_addr_index` and `created_event_index` but no `created_message_index`. -/
structure ExecutionContextSnapshot where
  ledger_changes : LedgerState
  async_pool_changes : List (AsyncMessageId × AsyncMessage)
  executed_ops : List (OperationId × Slot)
  pos_changes : PosState
  created_addr_index : Nat
  created_event_index : Nat
  stack : List ExecutionStackElement
  events : List SCOutputEvent
  unsafe_rng : Nat
deriving DecidableEq, Repr

/-- `ExecutionContext::get_snapshot` (context.rs lines 184-196). -/
def ExecutionContext.get_snapshot (c : ExecutionContext) : ExecutionContextSnapshot where
  ledger_changes := c.ledger_changes
  async_pool_changes := c.async_pool_changes
  executed_ops := c.executed_ops
  pos_changes := c.pos_changes
  created_addr_index := c.created_addr_index
  created_event_index := c.created_event_index
  stack := c.stack
  events := c.events
  unsafe_rng := c.unsafe_rng

/-- `ExecutionContext::event_create` (context.rs lines 757-771): builds an
event stamped with the current context; does not increment any counter. -/
def ExecutionContext.event_create (c : ExecutionContext) (data : String) : SCOutputEvent where
  slot := c.slot
  block := c.opt_block_id
  call_stack := c.stack.map (fun e => e.address)
  read_only := c.read_only
  index_in_slot := c.created_event_index
  origin_operation_id := c.origin_operation_id
  is_final := false
  data := data

/-- `ExecutionContext::event_emit` (context.rs lines 775-784): overrides the
event index with the counter, increments the counter, appends the event. -/
def ExecutionContext.event_emit (c : ExecutionContext) (event : SCOutputEvent) : ExecutionContext :=
  { c with
    events := c.events ++ [{ event with index_in_slot := c.created_event_index }]
    created_event_index := c.created_event_index + 1 }

/-- Payload of the error event emitted by `reset_to_snapshot`; the source
builds a one-field serde_json object from the error message (context.rs
lines 211-214); the JSON framing is abstracted into a tag. -/
def errorEventData (err : String) : String :=
  "massa_execution_error: " ++ err

/-- `ExecutionContext::reset_to_snapshot` (context.rs lines 205-237): restore
the nine snapshot fields, then emit the optional error event (created against
the pre-reset context, emitted against the restored one). -/
def ExecutionContext.reset_to_snapshot (c : ExecutionContext)
    (snapshot : ExecutionContextSnapshot) (with_error : Option String) : ExecutionContext :=
  let err_event := with_error.map (fun err => c.event_create (errorEventData err))
  let c2 : ExecutionContext :=
    { c with
      ledger_changes := snapshot.ledger_changes
      async_pool_changes := snapshot.async_pool_changes
      pos_changes := snapshot.pos_changes
      executed_ops := snapshot.executed_ops
      created_addr_index := snapshot.created_addr_index
      created_event_index := snapshot.created_event_index
      stack := snapshot.stack
      events := snapshot.events
      unsafe_rng := snapshot.unsafe_rng }
  match err_event with
  | some event => c2.event_emit event
  | none => c2

/-- Debit half of the speculative transfer. Modelled from the spec (§4.3
transfer): spending fails when the entry is absent or the balance underflows;
speculative_ledger.rs is not among the provided sources. -/
def ledgerDebit (l : LedgerState) (a : Addr) (amount : Amount) : Except String LedgerState :=
  match alGet l a with
  | none => Except.error "spending address not found"
  | some e =>
    if amount ≤ e.balance then Except.ok (alSet l a ⟨e.balance - amount, e.bytecode⟩)
    else Except.error "insufficient balance"

/-- Credit half of the speculative transfer. Modelled from the spec (§4.3):
crediting fails when the entry is absent or the balance overflows `u64`. -/
def ledgerCredit (l : LedgerState) (a : Addr) (amount : Amount) : Except String LedgerState :=
  match alGet l a with
  | none => Except.error "crediting address not found"
  | some e =>
    match Amount.checked_add e.balance amount with
    | none => Except.error "balance overflow"
    | some b => Except.ok (alSet l a ⟨b, e.bytecode⟩)

/-- `ExecutionContext::has_write_rights_on` (context.rs lines 383-387). -/
def ExecutionContext.has_write_rights_on (c : ExecutionContext) (a : Addr) : Bool :=
  match c.stack.getLast? with
  | some v => v.owned_addresses.contains a
  | none => false

/-- `ExecutionContext::transfer_coins` (context.rs lines 564-585): optional
rights check on the spender, then debit and credit; no changes are retained
on failure. -/
def ExecutionContext.transfer_coins (c : ExecutionContext)
    (from_addr to_addr : Option Addr) (amount : Amount) (check_rights : Bool) :
    Except String ExecutionContext :=
  if check_rights &&
      (match from_addr with
       | some f => !(c.has_write_rights_on f)
       | none => false) then
    Except.error "spending is not allowed in this context"
  else
    match (match from_addr with
           | some f => ledgerDebit c.ledger_changes f amount
           | none => Except.ok c.ledger_changes) with
    | Except.error e => Except.error e
    | Except.ok l1 =>
      match (match to_addr with
             | some t => ledgerCredit l1 t amount
             | none => Except.ok l1) with
      | Except.error e => Except.error e
      | Except.ok l2 => Except.ok { c with ledger_changes := l2 }

/-- `ExecutionContext::cancel_async_message` (context.rs lines 599-606):
reimburse `msg.coins` to the sender with an unchecked transfer; a failed
reimbursement is only logged. -/
def ExecutionContext.cancel_async_message (c : ExecutionContext) (msg : AsyncMessage) :
    ExecutionContext :=
  match c.transfer_coins none (some msg.sender) msg.coins false with
  | Except.ok c2 => c2
  | Except.error _ => c

/-- `ExecutionContext::get_bytecode` (context.rs lines 444-446) through the
speculative ledger view. -/
def ExecutionContext.get_bytecode (c : ExecutionContext) (a : Addr) : Option (List Nat) :=
  (alGet c.ledger_changes a).map (fun e => e.bytecode)

/-- `ExecutionContext::is_op_executed` (context.rs lines 787-789) through the
speculative executed-ops view. -/
def ExecutionContext.is_op_executed (c : ExecutionContext) (op_id : OperationId) : Bool :=
  c.executed_ops.any (fun p => p.1 == op_id)

/-- `ExecutionContext::insert_executed_op` (context.rs lines 797-800). -/
def ExecutionContext.insert_executed_op (c : ExecutionContext)
    (op_id : OperationId) (op_valid_until_slot : Slot) : ExecutionContext :=
  { c with executed_ops := c.executed_ops ++ [(op_id, op_valid_until_slot)] }

/-- `ExecutionContext::add_rolls` (context.rs lines 614-617); the roll-count
increment itself is modelled from the spec (§4.3 `add_rolls`). -/
def ExecutionContext.add_rolls (c : ExecutionContext) (buyer_addr : Addr) (roll_count : Nat) :
    ExecutionContext :=
  let current := (alGet c.pos_changes.roll_counts buyer_addr).getD 0
  { c with pos_changes :=
      { c.pos_changes with
        roll_counts := alInsert c.pos_changes.roll_counts buyer_addr (current + roll_count) } }

/-- `ExecutionContext::update_production_stats` (context.rs lines 645-653);
the stat recording is modelled from the spec (§4.6 production stats). -/
def ExecutionContext.update_production_stats (c : ExecutionContext)
    (creator : Addr) (slot : Slot) (block_id : Option BlockId) : ExecutionContext :=
  { c with pos_changes :=
      { c.pos_changes with
        production_stats := c.pos_changes.production_stats ++ [(creator, slot, block_id)] } }

/-- Execution configuration: the fields of `ExecutionConfig` used by the
embedded functions. The maximum miss ratio is carried as a fraction
`max_miss_num / max_miss_den`. -/
structure ExecutionConfig where
  thread_count : Nat
  periods_per_cycle : Nat
  max_async_gas : Nat
  max_gas_per_block : Nat
  block_reward : Amount
  endorsement_count : Nat
  roll_price : Amount
  operation_validity_period : Nat
  max_miss_num : Nat
  max_miss_den : Nat
deriving DecidableEq, Repr

/-- `ExecutionContext::try_sell_rolls` (context.rs lines 624-637); the roll
decrement and deferred-credit scheduling are modelled from the spec (§4.3
`try_sell_rolls`, §4.6): requires `rolls(a) ≥ n`, decrements the count, and
schedules a deferred credit of `n · roll_price` one refund delay (expressed
in cycles) after the current slot. -/
def ExecutionContext.try_sell_rolls (cfg : ExecutionConfig) (c : ExecutionContext)
    (seller_addr : Addr) (roll_count : Nat) : Except String ExecutionContext :=
  let owned := (alGet c.pos_changes.roll_counts seller_addr).getD 0
  if owned < roll_count then Except.error "not enough rolls to sell"
  else
    match Amount.checked_mul_u64 cfg.roll_price roll_count with
    | none => Except.error "overflow on the refunded coin amount"
    | some refund =>
      let target : Slot := ⟨c.slot.period + cfg.periods_per_cycle, c.slot.thread⟩
      Except.ok { c with pos_changes :=
        { c.pos_changes with
          roll_counts := alInsert c.pos_changes.roll_counts seller_addr (owned - roll_count)
          deferred_credits := c.pos_changes.deferred_credits ++ [(target, seller_addr, refund)] } }

/-- `OperationType` (massa-models, not among the provided sources): the five
typed operations dispatched by `execute_operation` (execution.rs lines
293-309), with the fields each branch reads. -/
inductive OperationType where
  | Transaction (recipient_address : Addr) (amount : Amount)
  | RollBuy (roll_count : Nat)
  | RollSell (roll_count : Nat)
  | ExecuteSC (data : List Nat) (max_gas : Nat) (gas_price : Amount)
      (datastore : List (List Nat × List Nat))
  | CallSC (max_gas : Nat) (gas_price : Amount) (target_addr : Addr)
      (target_func : String) (param : String) (coins : Amount)
deriving DecidableEq, Repr

/-- `WrappedOperation` (massa-models, not among the provided sources): the
fields `execute_operation` reads. -/
structure WrappedOperation where
  creator_address : Addr
  id : OperationId
  expire_period : Nat
  fee : Amount
  op : OperationType
deriving DecidableEq, Repr

/-- `Operation::get_gas_usage`, modelled from the spec (§4.4): the gas
requested by smart-contract operations, zero for the coin/roll operations. -/
def WrappedOperation.get_gas_usage (o : WrappedOperation) : Nat :=
  match o.op with
  | OperationType.ExecuteSC _ max_gas _ _ => max_gas
  | OperationType.CallSC max_gas _ _ _ _ _ => max_gas
  | _ => 0

/-- `Operation::get_gas_price`, modelled from the spec: the gas price carried
by smart-contract operations, zero otherwise. -/
def WrappedOperation.get_gas_price (o : WrappedOperation) : Amount :=
  match o.op with
  | OperationType.ExecuteSC _ _ gas_price _ => gas_price
  | OperationType.CallSC _ gas_price _ _ _ _ => gas_price
  | _ => 0

/-- `Operation::get_total_fee`, modelled from the source comment at
execution.rs line 235: `op.max_gas * op.gas_price + op.fee`. -/
def WrappedOperation.get_total_fee (o : WrappedOperation) : Amount :=
  Amount.saturating_add o.fee (Amount.saturating_mul_u64 o.get_gas_price o.get_gas_usage)

/-- Description of one VM invocation handed to the external runtime
(`massa_sc_runtime::run_main` / `run_function`). -/
inductive VmCall where
  | runMain (bytecode : List Nat) (max_gas : Nat)
  | runFunction (bytecode : List Nat) (max_gas : Nat) (func : String) (param : String)
deriving DecidableEq, Repr

/-- The external WASM runtime: given a call description and the context it
interacts with through the ABI, it returns the mutated context and an
optional runtime error. Every theorem is universally quantified over it. -/
abbrev VmRun := VmCall → ExecutionContext → ExecutionContext × Option String

/-- The typed execution dispatched by `execute_operation` (execution.rs
lines 293-309), inlining `execute_transaction_op` (433-470),
`execute_roll_buy_op` (378-424), `execute_roll_sell_op` (339-370),
`execute_executesc_op` (478-523) and `execute_callsc_op` (533-618).
Each branch first sets the call stack, then performs its effects;
errors leave the partially mutated context in place (the caller resets it). -/
def typedExecute (cfg : ExecutionConfig) (runVM : VmRun) (op : OperationType)
    (sender_addr : Addr) (ctx : ExecutionContext) : ExecutionContext × Option String :=
  match op with
  | OperationType.Transaction recipient_address amount =>
    let c := { ctx with stack := [⟨sender_addr, amount, [sender_addr], none⟩] }
    match c.transfer_coins (some sender_addr) (some recipient_address) amount false with
    | Except.ok c2 => (c2, none)
    | Except.error e => (c, some ("transfer of coins failed: " ++ e))
  | OperationType.RollBuy roll_count =>
    let c := { ctx with stack := [⟨sender_addr, 0, [sender_addr], none⟩] }
    match Amount.checked_mul_u64 cfg.roll_price roll_count with
    | none => (c, some "failed to buy rolls: overflow on the required coin amount")
    | some spend_coins =>
      match c.transfer_coins (some sender_addr) none spend_coins false with
      | Except.error e => (c, some ("failed to buy rolls: " ++ e))
      | Except.ok c2 => (c2.add_rolls sender_addr roll_count, none)
  | OperationType.RollSell roll_count =>
    let c := { ctx with stack := [⟨sender_addr, 0, [sender_addr], none⟩] }
    match ExecutionContext.try_sell_rolls cfg c sender_addr roll_count with
    | Except.ok c2 => (c2, none)
    | Except.error e => (c, some ("failed to sell rolls: " ++ e))
  | OperationType.ExecuteSC data max_gas _ datastore =>
    let c := { ctx with stack := [⟨sender_addr, 0, [sender_addr], some datastore⟩] }
    match runVM (VmCall.runMain data max_gas) c with
    | (c2, none) => (c2, none)
    | (c2, some e) => (c2, some ("bytecode execution error: " ++ e))
  | OperationType.CallSC max_gas _ target_addr target_func param coins =>
    let c := { ctx with stack :=
      [⟨sender_addr, 0, [sender_addr], none⟩, ⟨target_addr, 0, [target_addr], none⟩] }
    match c.transfer_coins (some sender_addr) none coins false with
    | Except.error e => (c, some ("failed to debit operation sender: " ++ e))
    | Except.ok c1 =>
      match c1.transfer_coins none (some target_addr) coins false with
      | Except.error e => (c1, some ("failed to credit operation target: " ++ e))
      | Except.ok c2 =>
        if target_func == "" then (c2, none)
        else
          let bytecode := (c2.get_bytecode target_addr).getD []
          match runVM (VmCall.runFunction bytecode max_gas target_func param) c2 with
          | (c3, none) => (c3, none)
          | (c3, some e) => (c3, some ("bytecode execution error: " ++ e))

/-- `ExecutionState::execute_operation` (execution.rs lines 196-331):
validity-window, block-gas and thread checks, the already-executed guard,
the fee debit, the executed-op insertion, the snapshot, the typed execution
and the reset-on-error. The validity window itself is modelled from the spec
(§4.4) because `get_validity_range` is not among the provided sources.
Returns the new context, remaining block gas and block credits. -/
def execute_operation (cfg : ExecutionConfig) (runVM : VmRun)
    (operation : WrappedOperation) (block_slot : Slot)
    (remaining_block_gas : Nat) (block_credits : Amount)
    (ctx : ExecutionContext) : Except String (ExecutionContext × Nat × Amount) :=
  if ¬ (operation.expire_period - cfg.operation_validity_period ≤ block_slot.period
        ∧ block_slot.period < operation.expire_period) then
    Except.error "InvalidSlotRange"
  else if operation.get_gas_usage > remaining_block_gas then
    Except.error "not enough remaining block gas to execute operation"
  else
    let new_remaining_block_gas := remaining_block_gas - operation.get_gas_usage
    let sender_addr := operation.creator_address
    let op_thread := sender_addr.get_thread cfg.thread_count
    if op_thread ≠ block_slot.thread then
      Except.error "operation vs block thread mismatch"
    else
      let op_fees := operation.get_total_fee
      let new_block_credits := Amount.saturating_add block_credits op_fees
      if ctx.is_op_executed operation.id then
        Except.error "operation was executed previously"
      else
        match ctx.transfer_coins (some sender_addr) none op_fees false with
        | Except.error e => Except.error ("could not spend fees: " ++ e)
        | Except.ok c1 =>
          let c2 := c1.insert_executed_op operation.id ⟨operation.expire_period, op_thread⟩
          let context_snapshot := c2.get_snapshot
          let c3 := { c2 with
            gas_price := operation.get_gas_price
            max_gas := operation.get_gas_usage
            creator_address := some operation.creator_address
            origin_operation_id := some operation.id }
          match typedExecute cfg runVM operation.op sender_addr c3 with
          | (c4, none) => Except.ok (c4, new_remaining_block_gas, new_block_credits)
          | (c4, some err) =>
            Except.ok
              (c4.reset_to_snapshot context_snapshot
                (some ("runtime error when executing operation: " ++ err)),
               new_remaining_block_gas, new_block_credits)

/-- `ExecutionState::execute_async_message` (execution.rs lines 626-709):
snapshot, context preparation, the missing-bytecode / invalid-UTF-8 guard,
the coin credit, the VM run; every failure resets to the snapshot and
reimburses the sender via `cancel_async_message`. The UTF-8 decoder of the
standard library is a universally quantified parameter. -/
def execute_async_message (isUtf8 : List Nat → Option String) (runVM : VmRun)
    (message : AsyncMessage) (bytecode : Option (List Nat))
    (ctx : ExecutionContext) : ExecutionContext × Option String :=
  let context_snapshot := ctx.get_snapshot
  let ctxM := { ctx with
    max_gas := message.max_gas
    gas_price := message.gas_price
    creator_address := none
    stack :=
      [⟨message.sender, message.coins, [message.sender], none⟩,
       ⟨message.destination, message.coins, [message.destination], none⟩] }
  match bytecode, isUtf8 message.data with
  | some bc, some d =>
    match ctxM.transfer_coins none (some message.destination) message.coins false with
    | Except.error e =>
      let err := "could not credit coins to target of async execution: " ++ e
      ((ctxM.reset_to_snapshot context_snapshot (some err)).cancel_async_message message,
       some err)
    | Except.ok ctxC =>
      match runVM (VmCall.runFunction bc message.max_gas message.handler d) ctxC with
      | (ctxV, none) => (ctxV, none)
      | (ctxV, some e) =>
        let err := "async message runtime execution error: " ++ e
        ((ctxV.reset_to_snapshot context_snapshot (some err)).cancel_async_message message,
         some err)
  | bc, _ =>
    let err := if bc.isNone then "no target bytecode found"
               else "message data does not convert to utf-8"
    ((ctxM.reset_to_snapshot context_snapshot (some err)).cancel_async_message message,
     some err)

/-- Batch selection of the speculative async pool. Modelled from the spec
(§4.5 `take_batch_to_execute`): scan the pool in priority order, take a
message when its validity window contains the slot, its destination thread
matches the slot thread and its gas still fits; taken messages leave the
pool. Returns `(batch, remaining pool)`. -/
def takeBatchAux (thread_count : Nat) (slot : Slot) :
    List (AsyncMessageId × AsyncMessage) → Nat →
    List (AsyncMessageId × AsyncMessage) × List (AsyncMessageId × AsyncMessage)
  | [], _ => ([], [])
  | (id, m) :: rest, available_gas =>
    if slotLeb m.validity_start slot && slotLtb slot m.validity_end
        && m.destination.get_thread thread_count == slot.thread
        && m.max_gas ≤ available_gas then
      let (batch, kept) := takeBatchAux thread_count slot rest (available_gas - m.max_gas)
      ((id, m) :: batch, kept)
    else
      let (batch, kept) := takeBatchAux thread_count slot rest available_gas
      (batch, (id, m) :: kept)

/-- `ExecutionContext::take_async_batch` (context.rs lines 294-303): select
the batch from the speculative pool and pair each message with the
destination bytecode read through the speculative ledger. -/
def ExecutionContext.take_async_batch (cfg : ExecutionConfig) (c : ExecutionContext) :
    List (Option (List Nat) × AsyncMessage) × ExecutionContext :=
  let (batch, kept) := takeBatchAux cfg.thread_count c.slot c.async_pool_changes cfg.max_async_gas
  (batch.map (fun p => (c.get_bytecode p.2.destination, p.2)),
   { c with async_pool_changes := kept })

/-- Expiry settlement of the async pool. Modelled from the spec (§4.5
`settle_slot`): messages with `validity_end ≤ slot` are deleted and returned
for reimbursement. Returns `(deleted, kept)`. -/
def poolSettleSlot (slot : Slot) (pool : List (AsyncMessageId × AsyncMessage)) :
    List (AsyncMessageId × AsyncMessage) × List (AsyncMessageId × AsyncMessage) :=
  (pool.filter (fun p => slotLeb p.2.validity_end slot),
   pool.filter (fun p => !(slotLeb p.2.validity_end slot)))

/-- `ExecutionContext::execute_deferred_credits` (context.rs lines 660-670):
pay every deferred credit attached to the slot with an unchecked transfer;
failures are only logged. -/
def ExecutionContext.execute_deferred_credits (c : ExecutionContext) (slot : Slot) :
    ExecutionContext :=
  (c.pos_changes.deferred_credits.filter (fun cr => cr.1 == slot)).foldl
    (fun acc cr =>
      match acc.transfer_coins none (some cr.2.1) cr.2.2 false with
      | Except.ok c2 => c2
      | Except.error _ => acc) c

/-- `Slot::is_last_of_cycle`, modelled from the spec (§4.6, glossary): the
last thread of the last period of its cycle. -/
def Slot.is_last_of_cycle (s : Slot) (periods_per_cycle thread_count : Nat) : Bool :=
  s.period % periods_per_cycle == periods_per_cycle - 1 && s.thread == thread_count - 1

/-- Production-stat settlement at the end of a cycle. Modelled from the spec
(§4.6): for each address with recorded stats, when the miss ratio exceeds
`max_miss_num / max_miss_den`, zero its rolls and schedule a deferred credit
refunding the remaining rolls one cycle later;
speculative_roll_state.rs is not among the provided sources. -/
def settleProductionStats (cfg : ExecutionConfig) (slot : Slot) (pos : PosState) : PosState :=
  let addrs := (pos.production_stats.map (fun e => e.1)).dedup
  addrs.foldl
    (fun acc a =>
      let ok := (pos.production_stats.filter (fun e => e.1 == a && e.2.2.isSome)).length
      let nok := (pos.production_stats.filter (fun e => e.1 == a && e.2.2.isNone)).length
      if ok + nok > 0 && nok * cfg.max_miss_den > cfg.max_miss_num * (ok + nok) then
        let rolls := (alGet acc.roll_counts a).getD 0
        let refund := Amount.saturating_mul_u64 cfg.roll_price rolls
        let target : Slot := ⟨slot.period + cfg.periods_per_cycle, slot.thread⟩
        { acc with
          roll_counts := alInsert acc.roll_counts a 0
          deferred_credits := acc.deferred_credits ++ [(target, a, refund)] }
      else acc) pos

/-- `StateChanges` (massa-final-state): the per-slot deltas of the four
sub-stores, here the settled content of the four speculative views. -/
structure StateChanges where
  ledger_changes : LedgerState
  async_pool_changes : List (AsyncMessageId × AsyncMessage)
  pos_changes : PosState
  executed_ops_changes : List (OperationId × Slot)
deriving DecidableEq, Repr

/-- `ExecutionOutput` (massa-execution-exports): output of one executed slot. -/
structure ExecutionOutput where
  slot : Slot
  block_id : Option BlockId
  state_changes : StateChanges
  events : List SCOutputEvent
deriving DecidableEq, Repr

/-- `ExecutionContext::settle_slot` (context.rs lines 679-718): settle the
async pool and reimburse deleted messages, pay the deferred credits of the
slot, settle production stats on the last slot of a cycle, then move the
settled views and events into the `ExecutionOutput`. Returns the output and
the drained context. -/
def ExecutionContext.settle_slot (cfg : ExecutionConfig) (c : ExecutionContext) :
    ExecutionOutput × ExecutionContext :=
  let slot := c.slot
  let (deleted_messages, kept) := poolSettleSlot slot c.async_pool_changes
  let c1 := { c with async_pool_changes := kept }
  let c2 := deleted_messages.foldl (fun acc p => acc.cancel_async_message p.2) c1
  let c3 := c2.execute_deferred_credits slot
  let c4 :=
    if slot.is_last_of_cycle cfg.periods_per_cycle cfg.thread_count then
      { c3 with pos_changes := settleProductionStats cfg slot c3.pos_changes }
    else c3
  let out : ExecutionOutput :=
    { slot := slot
      block_id := c4.opt_block_id
      state_changes :=
        { ledger_changes := c4.ledger_changes
          async_pool_changes := c4.async_pool_changes
          pos_changes := c4.pos_changes
          executed_ops_changes := c4.executed_ops }
      events := c4.events }
  (out, { c4 with opt_block_id := none, events := [] })

/-- Initial effective content of the four speculative views, as composed over
the final state and the active history when the context is created (the
`FS + AH` read-through of the spec §4.2). -/
structure InitialViews where
  ledger : LedgerState
  async_pool : List (AsyncMessageId × AsyncMessage)
  pos : PosState
  executed_ops : List (OperationId × Slot)
deriving DecidableEq, Repr

/-- `ExecutionContext::new` (context.rs lines 142-180): the placeholder
context over freshly composed views; every scalar field is defaulted and the
RNG is seeded from the all-zero seed. -/
def ExecutionContext.new (views : InitialViews) : ExecutionContext where
  ledger_changes := views.ledger
  async_pool_changes := views.async_pool
  pos_changes := views.pos
  executed_ops := views.executed_ops
  max_gas := 0
  gas_price := 0
  slot := ⟨0, 0⟩
  created_addr_index := 0
  created_event_index := 0
  created_message_index := 0
  opt_block_id := none
  stack := []
  read_only := false
  events := []
  unsafe_rng := 0
  creator_address := none
  origin_operation_id := none

/-- The RNG seed bytes of an active slot (context.rs lines 322-334): the slot
key bytes, the active-mode marker byte `1`, then the block id bytes when a
block is present; the seed is the BLAKE3 hash of these bytes. -/
def activeRngSeedBytes (slot : Slot) (opt_block_id : Option BlockId) : List Nat :=
  slot.to_bytes_key ++ [1] ++
    (match opt_block_id with
     | some block_id => block_id
     | none => [])

/-- `ExecutionContext::active_slot` (context.rs lines 315-344): a fresh
context for an active slot, its RNG deterministically seeded through the
hash function (BLAKE3, universally quantified). -/
def ExecutionContext.active_slot (hashOf : List Nat → Nat) (slot : Slot)
    (opt_block_id : Option BlockId) (views : InitialViews) : ExecutionContext :=
  { ExecutionContext.new views with
    slot := slot
    opt_block_id := opt_block_id
    unsafe_rng := hashOf (activeRngSeedBytes slot opt_block_id) }

/-- Sequential double crediting of the endorsement-related rewards
(execution.rs lines 835-874): for each pair, credit the endorsement creator
then the endorsed block creator with `part`, subtracting `part` from the
remaining credit on each success. Also returns the number of successful
credits. -/
def creditPairs (part : Amount) :
    ExecutionContext → List (Addr × Addr) → Amount → ExecutionContext × Amount × Nat
  | ctx, [], remaining => (ctx, remaining, 0)
  | ctx, (endorsement_creator, endorsement_target_creator) :: rest, remaining =>
    let step1 : ExecutionContext × Amount × Nat :=
      match ctx.transfer_coins none (some endorsement_creator) part false with
      | Except.ok c => (c, Amount.saturating_sub remaining part, 1)
      | Except.error _ => (ctx, remaining, 0)
    let step2 : ExecutionContext × Amount × Nat :=
      match step1.1.transfer_coins none (some endorsement_target_creator) part false with
      | Except.ok c => (c, Amount.saturating_sub step1.2.1 part, step1.2.2 + 1)
      | Except.error _ => step1
    let tail := creditPairs part step2.1 rest step2.2.1
    (tail.1, tail.2.1, step2.2.2 + tail.2.2)

/-- The reward distribution of `execute_slot` (execution.rs lines 830-884):
one share is `block_credits` checked-divided by `3 * (1 + endorsement_count)`;
each endorsement creator and each endorsed block creator is credited one
share (failures only logged), and the block creator receives the remaining
credit. The `None` division branch mirrors the source `expect` and is
unreachable since the divisor is never zero. -/
def distribute_block_credits (cfg : ExecutionConfig) (ctx : ExecutionContext)
    (block_creator_addr : Addr)
    (endorsement_creators endorsement_target_creators : List Addr)
    (block_credits : Amount) : ExecutionContext :=
  match Amount.checked_div_u64 block_credits (3 * (1 + cfg.endorsement_count)) with
  | none => ctx
  | some block_credit_part =>
    let r := creditPairs block_credit_part ctx
      (endorsement_creators.zip endorsement_target_creators) block_credits
    match r.1.transfer_coins none (some block_creator_addr) r.2.1 false with
    | Except.ok c2 => c2
    | Except.error _ => r.1

/-- The data of the block executed at a slot, as resolved from storage by
`execute_slot` (execution.rs lines 751-797): id, header slot, creator,
operations in block order, endorsement creators and the creators of the
endorsed blocks. -/
structure BlockTarget where
  block_id : BlockId
  header_slot : Slot
  creator_address : Addr
  operations : List WrappedOperation
  endorsement_creators : List Addr
  endorsement_target_creators : List Addr
deriving DecidableEq, Repr

/-- `ExecutionState::execute_slot` (execution.rs lines 721-895): build the
active context (RNG seeded from the slot and optional block id), take and run
the async message batch (errors logged), execute the block operations in
order (errors logged), update production stats and distribute rewards when a
block is present (otherwise record the miss for the selected producer), then
settle the slot into an `ExecutionOutput`. -/
def execute_slot (cfg : ExecutionConfig) (hashOf : List Nat → Nat)
    (isUtf8 : List Nat → Option String) (runVM : VmRun)
    (selector_producer : Addr) (views : InitialViews)
    (slot : Slot) (exec_target : Option BlockTarget) : ExecutionOutput :=
  let ctx0 := ExecutionContext.active_slot hashOf slot
    (exec_target.map (fun t => t.block_id)) views
  let batch := ctx0.take_async_batch cfg
  let ctx1 := batch.2
  let ctx2 := batch.1.foldl
    (fun acc p => (execute_async_message isUtf8 runVM p.2 p.1 acc).1) ctx1
  let ctx3 :=
    match exec_target with
    | some target =>
      let folded := target.operations.foldl
        (fun (acc : ExecutionContext × Nat × Amount) operation =>
          match execute_operation cfg runVM operation target.header_slot acc.2.1 acc.2.2 acc.1 with
          | Except.ok next => next
          | Except.error _ => acc)
        (ctx2, cfg.max_gas_per_block, cfg.block_reward)
      let cB := folded.1.update_production_stats target.creator_address slot (some target.block_id)
      distribute_block_credits cfg cB target.creator_address
        target.endorsement_creators target.endorsement_target_creators folded.2.2
    | none => ctx2.update_production_stats selector_producer slot none
  (ctx3.settle_slot cfg).1

/-! ## Active history (massa-execution-worker/src/active_history.rs) -/

/-- `SlotIndexPosition` (active_history.rs lines 24-33). -/
inductive SlotIndexPosition where
  | Past
  | Future
  | Found (index : Nat)
  | NoHistory
deriving DecidableEq, Repr

/-- `ActiveHistory::get_slot_index` (active_history.rs lines 192-214):
empty history is `NoHistory`; a slot before the front is `Past`; a failed or
out-of-range `slots_since` distance is `Future`; otherwise `Found(index)`. -/
def get_slot_index (h : List ExecutionOutput) (slot : Slot) (thread_count : Nat) :
    SlotIndexPosition :=
  match h.head? with
  | none => SlotIndexPosition.NoHistory
  | some front =>
    if slotLtb slot front.slot then SlotIndexPosition.Past
    else
      match slot.slots_since front.slot thread_count with
      | none => SlotIndexPosition.Future
      | some index =>
        if index ≥ h.length then SlotIndexPosition.Future
        else SlotIndexPosition.Found index

/-- `ActiveHistory::truncate_from` (active_history.rs lines 37-43): clear on
`Past`, truncate to the found index, otherwise leave the history unchanged. -/
def truncate_from (h : List ExecutionOutput) (slot : Slot) (thread_count : Nat) :
    List ExecutionOutput :=
  match get_slot_index h slot thread_count with
  | SlotIndexPosition.Past => []
  | SlotIndexPosition.Found index => h.take index
  | _ => h

/-! ## Execution cursors (massa-execution-worker/src/execution.rs) -/

/-- The cursor-relevant state of `ExecutionState` (execution.rs lines 50-73):
the active history and the two cursors. -/
structure ExecCursorState where
  active_history : List ExecutionOutput
  active_cursor : Slot
  final_cursor : Slot
deriving DecidableEq, Repr

/-- `ExecutionState::apply_final_execution_output` (execution.rs lines
135-166): panics (`none`) unless the output slot is beyond the final cursor;
advances the final cursor and pulls the active cursor up to it when behind. -/
def apply_final_execution_output (s : ExecCursorState) (exec_out : ExecutionOutput) :
    Option ExecCursorState :=
  if slotLeb exec_out.slot s.final_cursor then none
  else
    let s1 := { s with final_cursor := exec_out.slot }
    some (if slotLtb s1.active_cursor s1.final_cursor then
            { s1 with active_cursor := s1.final_cursor }
          else s1)

/-- `ExecutionState::apply_active_execution_output` (execution.rs lines
173-186): panics (`none`) unless the output slot is strictly beyond both
cursors; advances the active cursor and appends the output. -/
def apply_active_execution_output (s : ExecCursorState) (exec_out : ExecutionOutput) :
    Option ExecCursorState :=
  if slotLeb exec_out.slot s.active_cursor then none
  else if slotLeb exec_out.slot s.final_cursor then none
  else
    some { s with
      active_cursor := exec_out.slot
      active_history := s.active_history ++ [exec_out] }

/-- `ExecutionState::execute_candidate_slot` (execution.rs lines 898-937):
panics (`none`) when at or before the final cursor; when the slot was
already executed, truncates the history from it and rewinds the active
cursor to its predecessor; then executes the slot and applies the output. -/
def execute_candidate_slot (cfg : ExecutionConfig) (hashOf : List Nat → Nat)
    (isUtf8 : List Nat → Option String) (runVM : VmRun)
    (selector_producer : Addr) (views : InitialViews)
    (s : ExecCursorState) (slot : Slot) (exec_target : Option BlockTarget) :
    Option ExecCursorState :=
  if slotLeb slot s.final_cursor then none
  else
    let rewound : Option ExecCursorState :=
      if slotLeb slot s.active_cursor then
        match slot.get_prev_slot cfg.thread_count with
        | none => none
        | some prev =>
          some { s with
            active_history := truncate_from s.active_history slot cfg.thread_count
            active_cursor := prev }
      else some s
    match rewound with
    | none => none
    | some s1 =>
      let exec_out := execute_slot cfg hashOf isUtf8 runVM selector_producer views slot exec_target
      apply_active_execution_output s1 exec_out

/-! ## Ledger disk hash accumulator (massa-ledger-worker/src/ledger_db.rs) -/

/-- LEB128 worker, structurally recursive on a fuel argument so that terms
reduce inside the kernel; the fuel is always sufficient because a `u64`
shrinks to below 128 in at most its own value of divisions by 128. -/
def varintGo : Nat → Nat → List Nat
  | 0, n => [n % 128]
  | fuel + 1, n => if n < 128 then [n] else (n % 128 + 128) :: varintGo fuel (n / 128)

/-- LEB128 unsigned varint, modelled from the spec (§6.2): massa-serialization
is not among the provided sources. -/
def varint (n : Nat) : List Nat := varintGo n n

/-- Hash contribution of a stored pair (ledger_db.rs lines 266-270):
`BLAKE3(varint(len(k)) ++ k ++ v)`, with BLAKE3 universally quantified and
the 32-byte XOR (whose operator implementation is repo code outside the
provided sources, modelled from the spec §4.1 as bitwise XOR) carried on the
hash values. -/
def contribution (hashOf : List Nat → Nat) (key value : List Nat) : Nat :=
  hashOf (varint key.length ++ key ++ value)

/-- `LedgerBatch` (ledger_db.rs lines 100-117): the staged write operations,
the running ledger hash and the added-entry-hash cache. -/
structure LedgerBatchM where
  write_batch : List (List Nat × Option (List Nat))
  ledger_hash : Nat
  aeh_list : List (List Nat × Nat)
deriving DecidableEq, Repr

/-- `LedgerDB::put_entry_value` (ledger_db.rs lines 259-274): XOR the pair's
contribution into the hash, cache it in `aeh_list`, stage the put. -/
def put_entry_value (hashOf : List Nat → Nat) (batch : LedgerBatchM)
    (key value : List Nat) : LedgerBatchM :=
  let h := contribution hashOf key value
  { write_batch := batch.write_batch ++ [(key, some value)]
    ledger_hash := batch.ledger_hash ^^^ h
    aeh_list := alInsert batch.aeh_list key h }

/-- `LedgerDB::update_key_value` (ledger_db.rs lines 351-371): XOR out the
previous contribution (the cached batch hash if the key was written in this
batch, else the contribution of the on-disk value if present), then XOR the
new contribution in; `db` is the on-disk content read through `get_cf`. -/
def update_key_value (hashOf : List Nat → Nat) (db : List (List Nat × List Nat))
    (batch : LedgerBatchM) (key value : List Nat) : LedgerBatchM :=
  let base :=
    match alGet batch.aeh_list key with
    | some added_hash => batch.ledger_hash ^^^ added_hash
    | none =>
      match alGet db key with
      | some prev_bytes => batch.ledger_hash ^^^ contribution hashOf key prev_bytes
      | none => batch.ledger_hash
  let h := contribution hashOf key value
  { write_batch := batch.write_batch ++ [(key, some value)]
    ledger_hash := base ^^^ h
    aeh_list := alInsert batch.aeh_list key h }

/-- `LedgerDB::delete_key` (ledger_db.rs lines 413-424): XOR out the previous
contribution (cached batch hash, else on-disk contribution), stage the
delete. -/
def delete_key (hashOf : List Nat → Nat) (db : List (List Nat × List Nat))
    (batch : LedgerBatchM) (key : List Nat) : LedgerBatchM :=
  let base :=
    match alGet batch.aeh_list key with
    | some added_hash => batch.ledger_hash ^^^ added_hash
    | none =>
      match alGet db key with
      | some prev_bytes => batch.ledger_hash ^^^ contribution hashOf key prev_bytes
      | none => batch.ledger_hash
  { write_batch := batch.write_batch ++ [(key, none)]
    ledger_hash := base
    aeh_list := batch.aeh_list }

/-! ## Ledger bootstrap streaming (ledger_db.rs `get_ledger_part`) -/

/-- `StreamingStep` (massa-models streaming_step.rs, not among the provided
sources): the bootstrap cursor, modelled from the spec (§4.1
`bootstrap_part`): `Started`, `Ongoing(key)` or `Finished`. -/
inductive StreamingStep (α : Type) where
  | Started
  | Ongoing (x : α)
  | Finished
deriving DecidableEq, Repr

/-- Byte-lexicographic strict order on keys (the RocksDB iteration order). -/
def bytesLtb : List Nat → List Nat → Bool
  | [], [] => false
  | [], _ :: _ => true
  | _ :: _, [] => false
  | a :: as_, b :: bs => a < b || (a == b && bytesLtb as_ bs)

/-- One streamed ledger record: `varint(key_len) ++ key ++ varint(value_len)
++ value`. The key serializer (massa-ledger-exports `KeySerializer`, not
among the provided sources) is modelled from the spec (§6.2). -/
def serRecord (key value : List Nat) : List Nat :=
  varint key.length ++ key ++ varint value.length ++ value

/-- The iteration loop of `get_ledger_part` (ledger_db.rs lines 494-502):
append records while the accumulated part is strictly below the size bound,
moving the cursor to the last taken key. -/
def getLedgerPartLoop (part_size_bytes : Nat) :
    List (List Nat × List Nat) → List Nat → StreamingStep (List Nat) →
    List Nat × StreamingStep (List Nat)
  | [], acc, cursor => (acc, cursor)
  | (key, entry) :: rest, acc, cursor =>
    if acc.length < part_size_bytes then
      getLedgerPartLoop part_size_bytes rest (acc ++ serRecord key entry)
        (StreamingStep.Ongoing key)
    else (acc, cursor)

/-- The database entries remaining after positioning the iterator for a
cursor (ledger_db.rs lines 476-491): all entries for `Started`; the entries
at or after the last key with the first one skipped for `Ongoing`; nothing
for `Finished`. `db` is the ledger column family in ascending key order. -/
def remainingEntries (db : List (List Nat × List Nat)) :
    StreamingStep (List Nat) → List (List Nat × List Nat)
  | StreamingStep.Started => db
  | StreamingStep.Ongoing last_key => (db.dropWhile (fun e => bytesLtb e.1 last_key)).drop 1
  | StreamingStep.Finished => []

/-- `LedgerDB::get_ledger_part` (ledger_db.rs lines 465-504): position the
iterator according to the cursor (`Finished` returns the empty part at once,
`Ongoing` starts just after the last key with the fresh cursor initialized to
`Finished`), then stream records through the loop. -/
def get_ledger_part (part_size_bytes : Nat) (db : List (List Nat × List Nat))
    (cursor : StreamingStep (List Nat)) : List Nat × StreamingStep (List Nat) :=
  match cursor with
  | StreamingStep.Started =>
    getLedgerPartLoop part_size_bytes db [] StreamingStep.Started
  | StreamingStep.Ongoing last_key =>
    getLedgerPartLoop part_size_bytes
      ((db.dropWhile (fun e => bytesLtb e.1 last_key)).drop 1) [] StreamingStep.Finished
  | StreamingStep.Finished => ([], cursor)

/-! ## Helper lemmas -/

theorem slotLtb_iff (a b : Slot) : slotLtb a b = true ↔
    a.period < b.period ∨ (a.period = b.period ∧ a.thread < b.thread) := by
  cases a; cases b
  simp [slotLtb]

theorem slotLeb_iff (a b : Slot) : slotLeb a b = true ↔
    a.period < b.period ∨ (a.period = b.period ∧ a.thread ≤ b.thread) := by
  cases a; cases b
  simp [slotLeb, slotLtb, Slot.mk.injEq]
  omega

theorem not_slotLtb_iff (a b : Slot) : (¬ slotLtb a b = true) ↔
    (b.period < a.period ∨ (b.period = a.period ∧ b.thread ≤ a.thread)) := by
  rw [slotLtb_iff]
  omega

theorem not_slotLeb_iff (a b : Slot) : (¬ slotLeb a b = true) ↔
    (b.period < a.period ∨ (b.period = a.period ∧ b.thread < a.thread)) := by
  rw [slotLeb_iff]
  omega

theorem alGet_alSet_same {κ α : Type} [BEq κ] [LawfulBEq κ] (l : List (κ × α)) (k : κ) (v : α)
    (e0 : α) (h : alGet l k = some e0) : alGet (alSet l k v) k = some v := by
  induction l with
  | nil => simp [alGet] at h
  | cons p rest ih =>
    obtain ⟨k0, v0⟩ := p
    by_cases hk : (k0 == k) = true
    · simp [alGet, alSet, hk]
    · simp only [alGet, alSet, Bool.not_eq_true] at h ⊢
      rw [if_neg (by simp [hk])] at h
      rw [if_neg (by simp [hk])]
      simp only [alGet]
      rw [if_neg (by simp [hk])]
      exact ih h

theorem ledgerCredit_spec (l : LedgerState) (a : Addr) (amount : Amount) (l2 : LedgerState)
    (h : ledgerCredit l a amount = Except.ok l2) :
    ∃ e, alGet l a = some e ∧ e.balance + amount ≤ U64MAX ∧
      l2 = alSet l a ⟨e.balance + amount, e.bytecode⟩ := by
  unfold ledgerCredit at h
  cases hget : alGet l a with
  | none => rw [hget] at h; simp at h
  | some e =>
    rw [hget] at h
    simp only [Amount.checked_add] at h
    by_cases hov : e.balance + amount > U64MAX
    · rw [if_pos hov] at h; simp at h
    · rw [if_neg hov] at h
      simp only [Except.ok.injEq] at h
      refine ⟨e, rfl, by dsimp only [Amount] at *; omega, h.symm⟩

theorem ledgerDebit_spec (l : LedgerState) (a : Addr) (amount : Amount) (l2 : LedgerState)
    (h : ledgerDebit l a amount = Except.ok l2) :
    ∃ e, alGet l a = some e ∧ amount ≤ e.balance ∧
      l2 = alSet l a ⟨e.balance - amount, e.bytecode⟩ := by
  unfold ledgerDebit at h
  cases hget : alGet l a with
  | none => rw [hget] at h; simp at h
  | some e =>
    rw [hget] at h
    dsimp only at h
    by_cases hle : amount ≤ e.balance
    · rw [if_pos hle] at h
      simp only [Except.ok.injEq] at h
      exact ⟨e, rfl, hle, h.symm⟩
    · rw [if_neg hle] at h; simp at h

/-- Unchecked pure credit: `transfer_coins none (some a)` only rewrites the
ledger through `ledgerCredit`. -/
theorem transfer_credit_spec (c : ExecutionContext) (a : Addr) (amount : Amount)
    (c2 : ExecutionContext)
    (h : c.transfer_coins none (some a) amount false = Except.ok c2) :
    ∃ l2, ledgerCredit c.ledger_changes a amount = Except.ok l2 ∧
      c2 = { c with ledger_changes := l2 } := by
  unfold ExecutionContext.transfer_coins at h
  simp only [Bool.false_and, Bool.false_eq_true, if_false] at h
  cases hcr : ledgerCredit c.ledger_changes a amount with
  | error e => rw [hcr] at h; simp at h
  | ok l2 =>
    rw [hcr] at h
    simp only [Except.ok.injEq] at h
    exact ⟨l2, rfl, h.symm⟩

/-- Unchecked pure debit: `transfer_coins (some f) none` only rewrites the
ledger through `ledgerDebit`. -/
theorem transfer_debit_spec (c : ExecutionContext) (f : Addr) (amount : Amount)
    (c2 : ExecutionContext)
    (h : c.transfer_coins (some f) none amount false = Except.ok c2) :
    ∃ l1, ledgerDebit c.ledger_changes f amount = Except.ok l1 ∧
      c2 = { c with ledger_changes := l1 } := by
  unfold ExecutionContext.transfer_coins at h
  simp only [Bool.false_and, Bool.false_eq_true, if_false] at h
  cases hdb : ledgerDebit c.ledger_changes f amount with
  | error e => rw [hdb] at h; simp at h
  | ok l1 =>
    rw [hdb] at h
    simp only [Except.ok.injEq] at h
    exact ⟨l1, rfl, h.symm⟩

/-- Field behaviour of `cancel_async_message`: the reimbursement only touches
the ledger view, crediting `msg.coins` to the sender when possible. -/
theorem cancel_async_message_spec (c : ExecutionContext) (msg : AsyncMessage) :
    c.cancel_async_message msg =
      { c with ledger_changes :=
          match ledgerCredit c.ledger_changes msg.sender msg.coins with
          | Except.ok l2 => l2
          | Except.error _ => c.ledger_changes } := by
  unfold ExecutionContext.cancel_async_message ExecutionContext.transfer_coins
  simp only [Bool.false_and, Bool.false_eq_true, if_false]
  cases hcr : ledgerCredit c.ledger_changes msg.sender msg.coins with
  | error e => rfl
  | ok l2 => rfl

/-- Field behaviour of `reset_to_snapshot`: the nine snapshot fields are
restored (with the optional error event appended and counted), every other
field of the pre-reset context is kept. -/
theorem reset_to_snapshot_fields (c : ExecutionContext) (s : ExecutionContextSnapshot)
    (err : Option String) :
    c.reset_to_snapshot s err =
      { c with
        ledger_changes := s.ledger_changes
        async_pool_changes := s.async_pool_changes
        pos_changes := s.pos_changes
        executed_ops := s.executed_ops
        created_addr_index := s.created_addr_index
        stack := s.stack
        unsafe_rng := s.unsafe_rng
        created_event_index :=
          match err with
          | some _ => s.created_event_index + 1
          | none => s.created_event_index
        events :=
          match err with
          | some e => s.events ++
              [{ c.event_create (errorEventData e) with index_in_slot := s.created_event_index }]
          | none => s.events } := by
  cases err with
  | none => rfl
  | some e => rfl

/-! ## C4: async message id priority order -/

/-- C4. `AsyncMessage.compute_id` is the triple
`(reverse(max_gas * gas_price), emission_slot, emission_index)`; the derived
lexicographic order sorts higher fee products first, then older emission
slots, then lower emission indexes; ids determine the emission slot and
index, so two messages differing there have different ids; and the order is
total (trichotomy). -/
theorem c4_async_message_id_priority
    : (∀ m : AsyncMessage, m.compute_id =
          ⟨Amount.saturating_mul_u64 m.gas_price m.max_gas, m.emission_slot, m.emission_index⟩)
    ∧ (∀ x y : AsyncMessageId, y.fee < x.fee → msgIdLtb x y = true)
    ∧ (∀ x y : AsyncMessageId, x.fee = y.fee → slotLtb x.emission_slot y.emission_slot = true →
          msgIdLtb x y = true)
    ∧ (∀ x y : AsyncMessageId, x.fee = y.fee → x.emission_slot = y.emission_slot →
          x.emission_index < y.emission_index → msgIdLtb x y = true)
    ∧ (∀ m1 m2 : AsyncMessage,
          m1.emission_slot ≠ m2.emission_slot ∨ m1.emission_index ≠ m2.emission_index →
          m1.compute_id ≠ m2.compute_id)
    ∧ (∀ x y : AsyncMessageId, msgIdLtb x y = true ∨ msgIdLtb y x = true ∨ x = y) := by
  refine ⟨fun m => rfl, ?_, ?_, ?_, ?_, ?_⟩
  · intro x y h
    simp [msgIdLtb, h]
  · intro x y hf hs
    simp [msgIdLtb, hf, hs]
  · intro x y hf hs hi
    simp [msgIdLtb, hf, hs, hi]
  · intro m1 m2 h hc
    unfold AsyncMessage.compute_id at hc
    simp only [AsyncMessageId.mk.injEq] at hc
    rcases h with h | h
    · exact h hc.2.1
    · exact h hc.2.2
  · intro x y
    obtain ⟨fx, sx, ix⟩ := x
    obtain ⟨fy, sy, iy⟩ := y
    obtain ⟨sxp, sxt⟩ := sx
    obtain ⟨syp, syt⟩ := sy
    simp [msgIdLtb, slotLtb, AsyncMessageId.mk.injEq, Slot.mk.injEq]
    dsimp only [Amount] at *
    omega

/-- C4 witness at concrete inputs. -/
theorem c4_async_message_id_priority_witness :
    (msgIdLtb ⟨5, ⟨1, 0⟩, 0⟩ ⟨3, ⟨0, 0⟩, 0⟩ = true)
    ∧ (msgIdLtb ⟨5, ⟨1, 0⟩, 0⟩ ⟨5, ⟨1, 1⟩, 9⟩ = true)
    ∧ (msgIdLtb ⟨5, ⟨1, 1⟩, 2⟩ ⟨5, ⟨1, 1⟩, 9⟩ = true)
    ∧ ((⟨⟨1, 0⟩, 0, 7, 8, "h", 10, 2, 0, ⟨1, 0⟩, ⟨2, 0⟩, []⟩ : AsyncMessage).compute_id ≠
        (⟨⟨1, 0⟩, 1, 7, 8, "h", 10, 2, 0, ⟨1, 0⟩, ⟨2, 0⟩, []⟩ : AsyncMessage).compute_id)
    ∧ (msgIdLtb ⟨5, ⟨1, 0⟩, 0⟩ ⟨5, ⟨1, 0⟩, 0⟩ = true ∨
        msgIdLtb ⟨5, ⟨1, 0⟩, 0⟩ ⟨5, ⟨1, 0⟩, 0⟩ = true ∨
        (⟨5, ⟨1, 0⟩, 0⟩ : AsyncMessageId) = ⟨5, ⟨1, 0⟩, 0⟩) := by
  obtain ⟨-, h2, h3, h4, h5, h6⟩ := c4_async_message_id_priority
  refine ⟨h2 ⟨5, ⟨1, 0⟩, 0⟩ ⟨3, ⟨0, 0⟩, 0⟩ (by decide),
          h3 ⟨5, ⟨1, 0⟩, 0⟩ ⟨5, ⟨1, 1⟩, 9⟩ (by decide) (by decide),
          h4 ⟨5, ⟨1, 1⟩, 2⟩ ⟨5, ⟨1, 1⟩, 9⟩ (by decide) (by decide) (by decide),
          h5 _ _ (Or.inr (by decide)),
          h6 ⟨5, ⟨1, 0⟩, 0⟩ ⟨5, ⟨1, 0⟩, 0⟩⟩

/-! ## C10: truncate_from -/

/-- C10. `ActiveHistory::truncate_from`: a slot strictly older than the front
clears the whole history; a slot found at index `i` truncates the history to
its first `i` outputs (outputs before `i` unchanged, outputs from `i` on
removed); an empty history, or a slot beyond the back of the history
(`Future`), leaves the history unchanged. -/
theorem c10_truncate_from_cases
    : (∀ (h : List ExecutionOutput) (slot : Slot) (tc : Nat) (front : ExecutionOutput),
          h.head? = some front → slotLtb slot front.slot = true →
          truncate_from h slot tc = [])
    ∧ (∀ (h : List ExecutionOutput) (slot : Slot) (tc : Nat) (i : Nat),
          get_slot_index h slot tc = SlotIndexPosition.Found i →
          truncate_from h slot tc = h.take i)
    ∧ (∀ (slot : Slot) (tc : Nat), truncate_from [] slot tc = [])
    ∧ (∀ (h : List ExecutionOutput) (slot : Slot) (tc : Nat),
          get_slot_index h slot tc = SlotIndexPosition.Future →
          truncate_from h slot tc = h) := by
  refine ⟨?_, ?_, ?_, ?_⟩
  · intro h slot tc front hhead hlt
    unfold truncate_from get_slot_index
    rw [hhead]
    simp only [hlt, if_true]
  · intro h slot tc i hfound
    unfold truncate_from
    rw [hfound]
  · intro slot tc
    rfl
  · intro h slot tc hfut
    unfold truncate_from
    rw [hfut]

/-- C10 witness at concrete inputs: a three-output history starting at slot
`(1, 0)` with two threads. -/
theorem c10_truncate_from_cases_witness :
    truncate_from [⟨⟨1, 0⟩, none, ⟨[], [], ⟨[], [], []⟩, []⟩, []⟩,
                   ⟨⟨1, 1⟩, none, ⟨[], [], ⟨[], [], []⟩, []⟩, []⟩,
                   ⟨⟨2, 0⟩, none, ⟨[], [], ⟨[], [], []⟩, []⟩, []⟩] ⟨0, 1⟩ 2 = []
    ∧ truncate_from [⟨⟨1, 0⟩, none, ⟨[], [], ⟨[], [], []⟩, []⟩, []⟩,
                     ⟨⟨1, 1⟩, none, ⟨[], [], ⟨[], [], []⟩, []⟩, []⟩,
                     ⟨⟨2, 0⟩, none, ⟨[], [], ⟨[], [], []⟩, []⟩, []⟩] ⟨1, 1⟩ 2 =
        List.take 1 [⟨⟨1, 0⟩, none, ⟨[], [], ⟨[], [], []⟩, []⟩, []⟩,
                     ⟨⟨1, 1⟩, none, ⟨[], [], ⟨[], [], []⟩, []⟩, []⟩,
                     ⟨⟨2, 0⟩, none, ⟨[], [], ⟨[], [], []⟩, []⟩, []⟩]
    ∧ truncate_from [] ⟨1, 1⟩ 2 = []
    ∧ truncate_from [⟨⟨1, 0⟩, none, ⟨[], [], ⟨[], [], []⟩, []⟩, []⟩,
                     ⟨⟨1, 1⟩, none, ⟨[], [], ⟨[], [], []⟩, []⟩, []⟩,
                     ⟨⟨2, 0⟩, none, ⟨[], [], ⟨[], [], []⟩, []⟩, []⟩] ⟨2, 1⟩ 2 =
        [⟨⟨1, 0⟩, none, ⟨[], [], ⟨[], [], []⟩, []⟩, []⟩,
         ⟨⟨1, 1⟩, none, ⟨[], [], ⟨[], [], []⟩, []⟩, []⟩,
         ⟨⟨2, 0⟩, none, ⟨[], [], ⟨[], [], []⟩, []⟩, []⟩] := by
  obtain ⟨h1, h2, h3, h4⟩ := c10_truncate_from_cases
  exact ⟨h1 _ ⟨0, 1⟩ 2 _ rfl (by decide),
         h2 _ ⟨1, 1⟩ 2 1 (by decide),
         h3 ⟨1, 1⟩ 2,
         h4 _ ⟨2, 1⟩ 2 (by decide)⟩

/-! ## C5: snapshot / reset round trip -/

/-- A concrete sample of initial views used by counterexamples and witnesses. -/
def sampleViews : InitialViews where
  ledger := [(1, ⟨100, []⟩), (2, ⟨50, [7]⟩)]
  async_pool := []
  pos := ⟨[], [], []⟩
  executed_ops := []

/-- A concrete sample context built over `sampleViews`. -/
def sampleCtx : ExecutionContext :=
  ExecutionContext.new sampleViews

/-- C5 counterexample: the claim says `reset_to_snapshot` restores all three
`created_*` counters, but `ExecutionContextSnapshot` does not capture
`created_message_index`, so a context whose message counter moved after the
snapshot keeps the moved value after the reset. -/
theorem c5_counterexample_created_message_index :
    (({ sampleCtx with created_message_index := 1 } : ExecutionContext).reset_to_snapshot
        sampleCtx.get_snapshot none).created_message_index
      ≠ sampleCtx.created_message_index := by
  decide

/-- C5 as amended: `reset_to_snapshot` applied to the result of an earlier
`get_snapshot` restores the staged changes of the four speculative views,
`created_addr_index` and `created_event_index`, the call stack, the event
store and the RNG state to their snapshot-time values, the only difference
being one optional error event appended (and counted) when an error is
passed; `created_message_index` is not captured by the snapshot and keeps
its current value. -/
theorem c5_reset_to_snapshot_round_trip (c0 c : ExecutionContext) (err : Option String) :
    ((c.reset_to_snapshot c0.get_snapshot err).ledger_changes = c0.ledger_changes)
    ∧ ((c.reset_to_snapshot c0.get_snapshot err).async_pool_changes = c0.async_pool_changes)
    ∧ ((c.reset_to_snapshot c0.get_snapshot err).pos_changes = c0.pos_changes)
    ∧ ((c.reset_to_snapshot c0.get_snapshot err).executed_ops = c0.executed_ops)
    ∧ ((c.reset_to_snapshot c0.get_snapshot err).created_addr_index = c0.created_addr_index)
    ∧ ((c.reset_to_snapshot c0.get_snapshot err).stack = c0.stack)
    ∧ ((c.reset_to_snapshot c0.get_snapshot err).unsafe_rng = c0.unsafe_rng)
    ∧ ((c.reset_to_snapshot c0.get_snapshot err).created_message_index
        = c.created_message_index)
    ∧ (match err with
       | none =>
         (c.reset_to_snapshot c0.get_snapshot err).events = c0.events ∧
         (c.reset_to_snapshot c0.get_snapshot err).created_event_index = c0.created_event_index
       | some e =>
         (c.reset_to_snapshot c0.get_snapshot err).events = c0.events ++
           [{ c.event_create (errorEventData e) with index_in_slot := c0.created_event_index }] ∧
         (c.reset_to_snapshot c0.get_snapshot err).created_event_index
           = c0.created_event_index + 1) := by
  rw [reset_to_snapshot_fields]
  cases err with
  | none => exact ⟨rfl, rfl, rfl, rfl, rfl, rfl, rfl, rfl, rfl, rfl⟩
  | some e => exact ⟨rfl, rfl, rfl, rfl, rfl, rfl, rfl, rfl, rfl, rfl⟩

/-! ## C6: XOR accumulator ledger hash -/

/-- XOR of a list of hash values. -/
def xorAll : List Nat → Nat
  | [] => 0
  | h :: t => h ^^^ xorAll t

theorem xorAll_perm {l1 l2 : List Nat} (h : l1.Perm l2) : xorAll l1 = xorAll l2 := by
  induction h with
  | nil => rfl
  | cons x _ ih => simp only [xorAll, ih]
  | swap x y l =>
    simp only [xorAll]
    rw [← Nat.xor_assoc, Nat.xor_comm y x, Nat.xor_assoc]
  | trans _ _ ih1 ih2 => exact ih1.trans ih2

/-- Folding `put_entry_value` over a list of pairs. -/
def putFold (hashOf : List Nat → Nat) (batch : LedgerBatchM)
    (l : List (List Nat × List Nat)) : LedgerBatchM :=
  l.foldl (fun b p => put_entry_value hashOf b p.1 p.2) batch

theorem putFold_hash (hashOf : List Nat → Nat) :
    ∀ (l : List (List Nat × List Nat)) (batch : LedgerBatchM),
      (putFold hashOf batch l).ledger_hash =
        batch.ledger_hash ^^^ xorAll (l.map (fun p => contribution hashOf p.1 p.2)) := by
  intro l
  induction l with
  | nil => intro batch; simp [putFold, xorAll]
  | cons p rest ih =>
    intro batch
    simp only [putFold, List.foldl_cons, List.map_cons, xorAll]
    rw [show List.foldl (fun b q => put_entry_value hashOf b q.1 q.2)
          (put_entry_value hashOf batch p.1 p.2) rest
        = putFold hashOf (put_entry_value hashOf batch p.1 p.2) rest from rfl]
    rw [ih]
    simp only [put_entry_value]
    rw [Nat.xor_assoc]

/-- C6. The ledger hash is an XOR accumulator of per-pair contributions
`BLAKE3(varint(len(k)) ++ k ++ v)`: `put_entry_value` XORs the contribution
in; `delete_key` XORs the previous contribution out (the batch-cached hash if
the key was written in this batch, else the on-disk pair's contribution);
`update_key_value` XORs the old contribution out and the new one in; and
folding an identical set of puts in any order produces the identical ledger
hash. -/
theorem c6_ledger_hash_xor_accumulator (hashOf : List Nat → Nat)
    : (∀ (batch : LedgerBatchM) (k v : List Nat),
          (put_entry_value hashOf batch k v).ledger_hash
            = batch.ledger_hash ^^^ contribution hashOf k v)
    ∧ (∀ (db : List (List Nat × List Nat)) (batch : LedgerBatchM) (k prev : List Nat),
          alGet batch.aeh_list k = none → alGet db k = some prev →
          (delete_key hashOf db batch k).ledger_hash
            = batch.ledger_hash ^^^ contribution hashOf k prev)
    ∧ (∀ (db : List (List Nat × List Nat)) (batch : LedgerBatchM) (k : List Nat) (hc : Nat),
          alGet batch.aeh_list k = some hc →
          (delete_key hashOf db batch k).ledger_hash = batch.ledger_hash ^^^ hc)
    ∧ (∀ (db : List (List Nat × List Nat)) (batch : LedgerBatchM) (k v prev : List Nat),
          alGet batch.aeh_list k = none → alGet db k = some prev →
          (update_key_value hashOf db batch k v).ledger_hash
            = batch.ledger_hash ^^^ contribution hashOf k prev ^^^ contribution hashOf k v)
    ∧ (∀ (batch : LedgerBatchM) (l1 l2 : List (List Nat × List Nat)),
          l1.Perm l2 →
          (putFold hashOf batch l1).ledger_hash = (putFold hashOf batch l2).ledger_hash) := by
  refine ⟨fun batch k v => rfl, ?_, ?_, ?_, ?_⟩
  · intro db batch k prev hnone hdb
    simp only [delete_key, hnone, hdb]
  · intro db batch k hc hsome
    simp only [delete_key, hsome]
  · intro db batch k v prev hnone hdb
    simp only [update_key_value, hnone, hdb]
  · intro batch l1 l2 hperm
    rw [putFold_hash, putFold_hash, xorAll_perm (hperm.map _)]

/-- C6 witness at concrete inputs: a tiny model hash function, a batch with
one cached key, and a two-element permutation. -/
theorem c6_ledger_hash_xor_accumulator_witness :
    ((put_entry_value (fun l => l.length) ⟨[], 0, []⟩ [5] [9, 9]).ledger_hash
        = 0 ^^^ contribution (fun l => l.length) [5] [9, 9])
    ∧ ((delete_key (fun l => l.length) [([5], [9, 9])] ⟨[], 3, []⟩ [5]).ledger_hash
        = 3 ^^^ contribution (fun l => l.length) [5] [9, 9])
    ∧ ((delete_key (fun l => l.length) [] ⟨[], 3, [([5], 7)]⟩ [5]).ledger_hash = 3 ^^^ 7)
    ∧ ((update_key_value (fun l => l.length) [([5], [9, 9])] ⟨[], 3, []⟩ [5] [1]).ledger_hash
        = 3 ^^^ contribution (fun l => l.length) [5] [9, 9]
            ^^^ contribution (fun l => l.length) [5] [1])
    ∧ ((putFold (fun l => l.length) ⟨[], 0, []⟩ [([1], [2]), ([3], [4, 5])]).ledger_hash
        = (putFold (fun l => l.length) ⟨[], 0, []⟩ [([3], [4, 5]), ([1], [2])]).ledger_hash) := by
  obtain ⟨h1, h2, h3, h4, h5⟩ := c6_ledger_hash_xor_accumulator (fun l => l.length)
  exact ⟨h1 ⟨[], 0, []⟩ [5] [9, 9],
         h2 [([5], [9, 9])] ⟨[], 3, []⟩ [5] [9, 9] (by decide) (by decide),
         h3 [] ⟨[], 3, [([5], 7)]⟩ [5] 7 (by decide),
         h4 [([5], [9, 9])] ⟨[], 3, []⟩ [5] [1] [9, 9] (by decide) (by decide),
         h5 ⟨[], 0, []⟩ [([1], [2]), ([3], [4, 5])] [([3], [4, 5]), ([1], [2])]
           (List.Perm.swap _ _ _)⟩

/-! ## C9: bounded ledger bootstrap parts -/

/-- Length of the largest serialized record among a list of entries. -/
def maxRecLen (entries : List (List Nat × List Nat)) : Nat :=
  (entries.map (fun e => (serRecord e.1 e.2).length)).foldr max 0

theorem maxRecLen_sublist {l1 l2 : List (List Nat × List Nat)} (h : l1.Sublist l2) :
    maxRecLen l1 ≤ maxRecLen l2 := by
  induction h with
  | slnil => exact Nat.le_refl 0
  | cons e _ ih =>
    exact ih.trans (Nat.le_max_right _ _)
  | cons₂ e h ih =>
    simp only [maxRecLen, List.map_cons, List.foldr_cons]
    exact max_le_max (Nat.le_refl _) ih

theorem getLedgerPartLoop_bound (P : Nat) :
    ∀ (entries : List (List Nat × List Nat)) (acc : List Nat)
      (cursor : StreamingStep (List Nat)),
      (getLedgerPartLoop P entries acc cursor).1.length
        ≤ max acc.length ((P - 1) + maxRecLen entries) := by
  intro entries
  induction entries with
  | nil => intro acc cursor; simp [getLedgerPartLoop]
  | cons e rest ih =>
    intro acc cursor
    obtain ⟨k, v⟩ := e
    simp only [getLedgerPartLoop]
    by_cases hlt : acc.length < P
    · rw [if_pos hlt]
      refine (ih _ _).trans ?_
      have h1 : (acc ++ serRecord k v).length ≤ (P - 1) + maxRecLen ((k, v) :: rest) := by
        have hrec : (serRecord k v).length ≤ maxRecLen ((k, v) :: rest) :=
          Nat.le_max_left _ _
        simp only [List.length_append]
        omega
      have h2 : maxRecLen rest ≤ maxRecLen ((k, v) :: rest) := Nat.le_max_right _ _
      have h3 : (P - 1) + maxRecLen rest ≤ (P - 1) + maxRecLen ((k, v) :: rest) := by omega
      refine (max_le_max h1 h3).trans ?_
      simp only [Nat.max_self]
      exact Nat.le_max_right _ _
    · rw [if_neg hlt]
      exact Nat.le_max_left _ _

theorem getLedgerPartLoop_structure (P : Nat) :
    ∀ (entries : List (List Nat × List Nat)) (acc : List Nat)
      (cursor : StreamingStep (List Nat)),
      ∃ n, (getLedgerPartLoop P entries acc cursor).1
        = acc ++ ((entries.take n).map (fun e => serRecord e.1 e.2)).flatten := by
  intro entries
  induction entries with
  | nil =>
    intro acc cursor
    exact ⟨0, by simp [getLedgerPartLoop]⟩
  | cons e rest ih =>
    intro acc cursor
    obtain ⟨k, v⟩ := e
    simp only [getLedgerPartLoop]
    by_cases hlt : acc.length < P
    · rw [if_pos hlt]
      obtain ⟨n, hn⟩ := ih (acc ++ serRecord k v) (StreamingStep.Ongoing k)
      exact ⟨n + 1, by simp [hn, List.take_succ_cons]⟩
    · rw [if_neg hlt]
      exact ⟨0, by simp⟩

/-- C9 counterexample: the claim bounds the part size by `P`, but the loop
checks the bound before appending, so the last record can push the part past
`P` bytes: with `P = 1` and a single six-byte record the returned part has
six bytes. -/
theorem c9_counterexample_part_exceeds_bound :
    (get_ledger_part 1 [([0], [1, 2, 3])] StreamingStep.Started).1.length > 1 := by
  decide

/-- C9 as amended: for every cursor, `get_ledger_part` returns a part made of
serialized `(key_len, key, value_len, value)` records for a consecutive run
of the entries remaining at the cursor, together with the next cursor;
records are appended only while the accumulated part is strictly below `P`
bytes, so the part size is at most `P - 1` plus the size of the largest
record; a `Finished` cursor yields an empty part and leaves the cursor
`Finished`. -/
theorem c9_get_ledger_part_bounded (P : Nat) (db : List (List Nat × List Nat))
    (cursor : StreamingStep (List Nat))
    : (get_ledger_part P db StreamingStep.Finished = ([], StreamingStep.Finished))
    ∧ (∃ n, (get_ledger_part P db cursor).1
          = (((remainingEntries db cursor).take n).map (fun e => serRecord e.1 e.2)).flatten)
    ∧ ((get_ledger_part P db cursor).1.length ≤ (P - 1) + maxRecLen db) := by
  refine ⟨rfl, ?_, ?_⟩
  · cases cursor with
    | Started =>
      obtain ⟨n, hn⟩ := getLedgerPartLoop_structure P db [] StreamingStep.Started
      exact ⟨n, by simpa [get_ledger_part, remainingEntries] using hn⟩
    | Ongoing last_key =>
      obtain ⟨n, hn⟩ := getLedgerPartLoop_structure P
        ((db.dropWhile (fun e => bytesLtb e.1 last_key)).drop 1) [] StreamingStep.Finished
      exact ⟨n, by simpa [get_ledger_part, remainingEntries] using hn⟩
    | Finished => exact ⟨0, by simp [get_ledger_part, remainingEntries]⟩
  · cases cursor with
    | Started =>
      refine (getLedgerPartLoop_bound P db [] StreamingStep.Started).trans ?_
      simp
    | Ongoing last_key =>
      refine (getLedgerPartLoop_bound P
        ((db.dropWhile (fun e => bytesLtb e.1 last_key)).drop 1) [] StreamingStep.Finished).trans ?_
      simp only [List.length_nil, Nat.max_eq_right (Nat.zero_le _)]
      have hsub : ((db.dropWhile (fun e => bytesLtb e.1 last_key)).drop 1).Sublist db :=
        ((db.dropWhile (fun e => bytesLtb e.1 last_key)).drop_sublist 1).trans
          (db.dropWhile_sublist _)
      have := maxRecLen_sublist hsub
      omega
    | Finished => simp [get_ledger_part]

/-! ## C7: cursor invariant preservation -/

/-- C7. The invariant `final_cursor ≤ active_cursor` is preserved by every
transition: `apply_final_execution_output` raises the active cursor up to the
new final cursor when it was behind; `apply_active_execution_output` only
succeeds when the output slot is strictly greater than both cursors and then
preserves the invariant; `execute_candidate_slot` preserves the invariant and,
when it rewinds, only rewinds the active cursor to the predecessor of the
candidate slot, which is not below the final cursor (strictly greater than
`final_cursor` minus one slot). -/
theorem c7_cursor_invariant_preserved
    : (∀ (s : ExecCursorState) (out : ExecutionOutput) (s2 : ExecCursorState),
          apply_final_execution_output s out = some s2 →
          s2.final_cursor = out.slot
          ∧ (slotLtb s.active_cursor out.slot = true → s2.active_cursor = out.slot)
          ∧ (slotLtb s.active_cursor out.slot = false → s2.active_cursor = s.active_cursor)
          ∧ slotLeb s2.final_cursor s2.active_cursor = true
            ∨ slotLeb s.final_cursor s.active_cursor = false)
    ∧ (∀ (s : ExecCursorState) (out : ExecutionOutput) (s2 : ExecCursorState),
          apply_active_execution_output s out = some s2 →
          slotLtb s.active_cursor out.slot = true
          ∧ slotLtb s.final_cursor out.slot = true
          ∧ s2.final_cursor = s.final_cursor ∧ s2.active_cursor = out.slot
          ∧ slotLeb s2.final_cursor s2.active_cursor = true)
    ∧ (∀ (cfg : ExecutionConfig) (hashOf : List Nat → Nat)
          (isUtf8 : List Nat → Option String) (runVM : VmRun) (producer : Addr)
          (views : InitialViews) (s : ExecCursorState) (slot : Slot)
          (target : Option BlockTarget) (s2 : ExecCursorState),
          execute_candidate_slot cfg hashOf isUtf8 runVM producer views s slot target = some s2 →
          slotLtb s.final_cursor slot = true
          ∧ s2.final_cursor = s.final_cursor
          ∧ slotLeb s2.final_cursor s2.active_cursor = true
          ∧ (slotLeb slot s.active_cursor = true →
              s.final_cursor.thread < cfg.thread_count →
              ∃ prev, slot.get_prev_slot cfg.thread_count = some prev ∧
                slotLeb s.final_cursor prev = true)) := by
  refine ⟨?_, ?_, ?_⟩
  · intro s out s2 happ
    unfold apply_final_execution_output at happ
    by_cases hle : slotLeb out.slot s.final_cursor = true
    · rw [if_pos hle] at happ
      simp at happ
    · rw [if_neg hle] at happ
      dsimp only at happ
      by_cases hlt : slotLtb s.active_cursor out.slot = true
      · rw [if_pos hlt] at happ
        simp only [Option.some.injEq] at happ
        subst happ
        refine Or.inl ⟨rfl, fun _ => rfl, fun hf => absurd hlt (by simp [hf]), ?_⟩
        dsimp only
        rw [slotLeb_iff]
        omega
      · rw [if_neg hlt] at happ
        simp only [Option.some.injEq] at happ
        subst happ
        refine Or.inl ⟨rfl, fun hc => absurd hc hlt, fun _ => rfl, ?_⟩
        have hltp := (not_slotLtb_iff _ _).mp hlt
        dsimp only
        rw [slotLeb_iff]
        omega
  · intro s out s2 happ
    unfold apply_active_execution_output at happ
    by_cases h1 : slotLeb out.slot s.active_cursor = true
    · rw [if_pos h1] at happ; simp at happ
    · rw [if_neg h1] at happ
      by_cases h2 : slotLeb out.slot s.final_cursor = true
      · rw [if_pos h2] at happ; simp at happ
      · rw [if_neg h2] at happ
        simp only [Option.some.injEq] at happ
        subst happ
        have h1p := (not_slotLeb_iff _ _).mp h1
        have h2p := (not_slotLeb_iff _ _).mp h2
        refine ⟨by rw [slotLtb_iff]; omega, by rw [slotLtb_iff]; omega, rfl, rfl, ?_⟩
        dsimp only
        rw [slotLeb_iff]
        omega
  · intro cfg hashOf isUtf8 runVM producer views s slot target s2 hexec
    unfold execute_candidate_slot at hexec
    by_cases h1 : slotLeb slot s.final_cursor = true
    · rw [if_pos h1] at hexec; simp at hexec
    · rw [if_neg h1] at hexec
      dsimp only at hexec
      have h1p := (not_slotLeb_iff _ _).mp h1
      have hfin_lt : slotLtb s.final_cursor slot = true := by rw [slotLtb_iff]; omega
      by_cases h2 : slotLeb slot s.active_cursor = true
      · rw [if_pos h2] at hexec
        cases hprev : slot.get_prev_slot cfg.thread_count with
        | none => rw [hprev] at hexec; simp at hexec
        | some prev =>
          rw [hprev] at hexec
          dsimp only at hexec
          unfold apply_active_execution_output at hexec
          set out := execute_slot cfg hashOf isUtf8 runVM producer views slot target with hout
          by_cases ha : slotLeb out.slot prev = true
          · rw [if_pos ha] at hexec; simp at hexec
          · rw [if_neg ha] at hexec
            by_cases hb : slotLeb out.slot s.final_cursor = true
            · rw [if_pos hb] at hexec; simp at hexec
            · rw [if_neg hb] at hexec
              simp only [Option.some.injEq] at hexec
              subst hexec
              have hbp := (not_slotLeb_iff _ _).mp hb
              refine ⟨hfin_lt, rfl, by dsimp only; rw [slotLeb_iff]; omega, ?_⟩
              intro _ hthr
              refine ⟨prev, rfl, ?_⟩
              unfold Slot.get_prev_slot at hprev
              by_cases hz : slot.thread = 0
              · rw [if_pos hz] at hprev
                by_cases hp0 : slot.period = 0
                · rw [if_pos hp0] at hprev; simp at hprev
                · rw [if_neg hp0] at hprev
                  simp only [Option.some.injEq] at hprev
                  subst hprev
                  rw [slotLeb_iff]
                  dsimp only
                  omega
              · rw [if_neg hz] at hprev
                simp only [Option.some.injEq] at hprev
                subst hprev
                rw [slotLeb_iff]
                dsimp only
                omega
      · rw [if_neg h2] at hexec
        dsimp only at hexec
        unfold apply_active_execution_output at hexec
        set out := execute_slot cfg hashOf isUtf8 runVM producer views slot target with hout
        by_cases ha : slotLeb out.slot s.active_cursor = true
        · rw [if_pos ha] at hexec; simp at hexec
        · rw [if_neg ha] at hexec
          by_cases hb : slotLeb out.slot s.final_cursor = true
          · rw [if_pos hb] at hexec; simp at hexec
          · rw [if_neg hb] at hexec
            simp only [Option.some.injEq] at hexec
            subst hexec
            have hbp := (not_slotLeb_iff _ _).mp hb
            refine ⟨hfin_lt, rfl, by dsimp only; rw [slotLeb_iff]; omega,
              fun hc _ => absurd hc (by simp [h2])⟩

/-- A concrete execution output at slot `(2, 0)` used by the C7 witness:
executing a miss slot over `sampleViews` only records the production miss. -/
def wOut : ExecutionOutput where
  slot := ⟨2, 0⟩
  block_id := none
  state_changes :=
    { ledger_changes := sampleViews.ledger
      async_pool_changes := []
      pos_changes := ⟨[], [(1, ⟨2, 0⟩, none)], []⟩
      executed_ops_changes := [] }
  events := []

/-- A concrete execution configuration used by witnesses. -/
def wCfg : ExecutionConfig where
  thread_count := 2
  periods_per_cycle := 10
  max_async_gas := 0
  max_gas_per_block := 100
  block_reward := 0
  endorsement_count := 0
  roll_price := 100
  operation_validity_period := 10
  max_miss_num := 1
  max_miss_den := 2

/-- C7 witness at concrete inputs: one final application that pulls the
active cursor up, one active application beyond both cursors, and one
candidate execution of the miss slot `(2, 0)` over `sampleViews`. -/
theorem c7_cursor_invariant_preserved_witness :
    (∃ s2 : ExecCursorState,
        apply_final_execution_output ⟨[], ⟨1, 0⟩, ⟨1, 0⟩⟩ wOut = some s2 ∧
        slotLeb s2.final_cursor s2.active_cursor = true)
    ∧ (∃ s2 : ExecCursorState,
        apply_active_execution_output ⟨[], ⟨1, 0⟩, ⟨1, 0⟩⟩ wOut = some s2 ∧
        slotLeb s2.final_cursor s2.active_cursor = true)
    ∧ (∃ s2 : ExecCursorState,
        execute_candidate_slot wCfg (fun _ => 0) (fun _ => none) (fun _ c => (c, none)) 1
          sampleViews ⟨[], ⟨1, 0⟩, ⟨1, 0⟩⟩ ⟨2, 0⟩ none = some s2 ∧
        slotLeb s2.final_cursor s2.active_cursor = true) := by
  obtain ⟨p1, p2, p3⟩ := c7_cursor_invariant_preserved
  refine ⟨⟨⟨[], ⟨2, 0⟩, ⟨2, 0⟩⟩, by decide, ?_⟩,
          ⟨⟨[wOut], ⟨2, 0⟩, ⟨1, 0⟩⟩, by decide, ?_⟩,
          ⟨⟨[wOut], ⟨2, 0⟩, ⟨1, 0⟩⟩, by decide, ?_⟩⟩
  · rcases p1 ⟨[], ⟨1, 0⟩, ⟨1, 0⟩⟩ wOut ⟨[], ⟨2, 0⟩, ⟨2, 0⟩⟩ (by decide) with
      ⟨-, -, -, hinv⟩ | habs
    · exact hinv
    · exact absurd habs (by decide)
  · exact (p2 ⟨[], ⟨1, 0⟩, ⟨1, 0⟩⟩ wOut ⟨[wOut], ⟨2, 0⟩, ⟨1, 0⟩⟩ (by decide)).2.2.2.2
  · exact (p3 wCfg (fun _ => 0) (fun _ => none) (fun _ c => (c, none)) 1 sampleViews
      ⟨[], ⟨1, 0⟩, ⟨1, 0⟩⟩ ⟨2, 0⟩ none ⟨[wOut], ⟨2, 0⟩, ⟨1, 0⟩⟩ (by decide)).2.2.1

/-! ## C8: block credit distribution -/

theorem creditPairs_remaining (part : Amount) :
    ∀ (pairs : List (Addr × Addr)) (ctx : ExecutionContext) (remaining : Amount),
      (creditPairs part ctx pairs remaining).2.1
        = Amount.saturating_sub remaining (part * (creditPairs part ctx pairs remaining).2.2) := by
  intro pairs
  induction pairs with
  | nil =>
    intro ctx remaining
    simp [creditPairs, Amount.saturating_sub]
  | cons p rest ih =>
    intro ctx remaining
    obtain ⟨ec, tc⟩ := p
    simp only [creditPairs]
    cases h1 : ctx.transfer_coins none (some ec) part false with
    | ok c1 =>
      cases h2 : c1.transfer_coins none (some tc) part false with
      | ok c2 =>
        dsimp only
        rw [ih]
        simp only [Amount.saturating_sub]
        rw [Nat.sub_sub, Nat.sub_sub]
        congr 1
        dsimp only [Amount] at *
        ring
      | error e =>
        dsimp only
        rw [ih]
        simp only [Amount.saturating_sub]
        rw [Nat.sub_sub]
        congr 1
        dsimp only [Amount] at *
        ring
    | error e =>
      cases h2 : ctx.transfer_coins none (some tc) part false with
      | ok c2 =>
        dsimp only
        rw [ih]
        simp only [Amount.saturating_sub]
        rw [Nat.sub_sub]
        congr 1
        dsimp only [Amount] at *
        ring
      | error e2 =>
        dsimp only
        rw [ih]
        simp only [Amount.saturating_sub]
        congr 1
        dsimp only [Amount] at *
        ring

/-- C8. When a block is present, the credited share is `block_credits`
checked-divided by `3 * (1 + endorsement_count)` (the division is always
defined since the divisor is positive); the pair loop credits each
endorsement creator and each endorsed block creator one share through
unchecked transfers whose failures never abort (the distribution is a total
function returning a context); the remaining credit after the loop equals
`block_credits` minus one share per successful credit; and the block creator
is credited exactly that remainder. -/
theorem c8_block_credit_distribution (cfg : ExecutionConfig) (ctx : ExecutionContext)
    (block_creator_addr : Addr)
    (endorsement_creators endorsement_target_creators : List Addr) (block_credits : Amount)
    : (Amount.checked_div_u64 block_credits (3 * (1 + cfg.endorsement_count))
        = some (block_credits / (3 * (1 + cfg.endorsement_count))))
    ∧ ((creditPairs (block_credits / (3 * (1 + cfg.endorsement_count))) ctx
          (endorsement_creators.zip endorsement_target_creators) block_credits).2.1
        = Amount.saturating_sub block_credits
            ((block_credits / (3 * (1 + cfg.endorsement_count)))
              * (creditPairs (block_credits / (3 * (1 + cfg.endorsement_count))) ctx
                  (endorsement_creators.zip endorsement_target_creators) block_credits).2.2))
    ∧ (∀ (a : Addr) (amt : Amount) (c c2 : ExecutionContext),
          c.transfer_coins none (some a) amt false = Except.ok c2 →
          ∃ e, alGet c.ledger_changes a = some e ∧
            alGet c2.ledger_changes a = some ⟨e.balance + amt, e.bytecode⟩)
    ∧ (distribute_block_credits cfg ctx block_creator_addr
          endorsement_creators endorsement_target_creators block_credits
        = (match (creditPairs (block_credits / (3 * (1 + cfg.endorsement_count))) ctx
              (endorsement_creators.zip endorsement_target_creators) block_credits).1.transfer_coins
                none (some block_creator_addr)
                (creditPairs (block_credits / (3 * (1 + cfg.endorsement_count))) ctx
                  (endorsement_creators.zip endorsement_target_creators) block_credits).2.1
                false with
           | Except.ok c2 => c2
           | Except.error _ =>
             (creditPairs (block_credits / (3 * (1 + cfg.endorsement_count))) ctx
               (endorsement_creators.zip endorsement_target_creators) block_credits).1)) := by
  have hdiv : Amount.checked_div_u64 block_credits (3 * (1 + cfg.endorsement_count))
      = some (block_credits / (3 * (1 + cfg.endorsement_count))) := by
    unfold Amount.checked_div_u64
    rw [if_neg (by omega)]
  refine ⟨hdiv, creditPairs_remaining _ _ ctx block_credits, ?_, ?_⟩
  · intro a amt c c2 htr
    obtain ⟨l2, hcr, hc2⟩ := transfer_credit_spec c a amt c2 htr
    obtain ⟨e, hget, _, hl2⟩ := ledgerCredit_spec c.ledger_changes a amt l2 hcr
    refine ⟨e, hget, ?_⟩
    rw [hc2]
    dsimp only
    rw [hl2]
    exact alGet_alSet_same _ _ _ _ hget
  · unfold distribute_block_credits
    rw [hdiv]

/-- C8 witness at concrete inputs: one endorsement pair whose first credit
succeeds and whose second credit fails (unknown address), over `sampleCtx`. -/
theorem c8_block_credit_distribution_witness :
    (Amount.checked_div_u64 30 (3 * (1 + wCfg.endorsement_count)) = some 10)
    ∧ ((creditPairs 10 sampleCtx ([1].zip [99]) 30).2.1 = 20)
    ∧ (∃ e, alGet sampleCtx.ledger_changes 1 = some e ∧
        alGet ((creditPairs 10 sampleCtx ([1].zip [99]) 30).1.ledger_changes) 1
          = some ⟨e.balance + 10, e.bytecode⟩)
    ∧ (distribute_block_credits wCfg sampleCtx 2 [1] [99] 30
        = (match (creditPairs 10 sampleCtx ([1].zip [99]) 30).1.transfer_coins
              none (some 2) ((creditPairs 10 sampleCtx ([1].zip [99]) 30).2.1) false with
           | Except.ok c2 => c2
           | Except.error _ => (creditPairs 10 sampleCtx ([1].zip [99]) 30).1)) := by
  obtain ⟨h1, h2, h3, h4⟩ := c8_block_credit_distribution wCfg sampleCtx 2 [1] [99] 30
  refine ⟨h1, ?_, ?_, h4⟩
  · have h2x : (creditPairs 10 sampleCtx ([1].zip [99]) 30).2.1
        = Amount.saturating_sub 30 (10 * (creditPairs 10 sampleCtx ([1].zip [99]) 30).2.2) := h2
    rw [h2x]
    decide
  · obtain ⟨e, hget, hcredit⟩ := h3 1 10 sampleCtx
      ((creditPairs 10 sampleCtx ([1].zip [99]) 30).1) (by rfl)
    exact ⟨e, hget, hcredit⟩

/-! ## C2: failed operation keeps fee debit and executed-op mark -/

/-- C2. When every inclusion check passes, the fee debit succeeds, and the
typed execution then fails, `execute_operation` still returns `ok` (the slot
goes on), keeps the sender's fee debit and the executed-ops insertion,
restores every snapshot-captured view and counter to the state taken just
after those two effects, and appends exactly one error event. -/
theorem c2_failed_operation_keeps_fee_and_mark (cfg : ExecutionConfig) (runVM : VmRun)
    (operation : WrappedOperation) (block_slot : Slot)
    (remaining_block_gas : Nat) (block_credits : Amount)
    (ctx c1 c3 c4 : ExecutionContext) (err : String)
    (hval : operation.expire_period - cfg.operation_validity_period ≤ block_slot.period
            ∧ block_slot.period < operation.expire_period)
    (hgas : operation.get_gas_usage ≤ remaining_block_gas)
    (hthread : operation.creator_address.get_thread cfg.thread_count = block_slot.thread)
    (hnotexec : ctx.is_op_executed operation.id = false)
    (hfee : ctx.transfer_coins (some operation.creator_address) none
              operation.get_total_fee false = Except.ok c1)
    (hc3 : c3 = { c1.insert_executed_op operation.id
                    ⟨operation.expire_period,
                     operation.creator_address.get_thread cfg.thread_count⟩ with
                  gas_price := operation.get_gas_price
                  max_gas := operation.get_gas_usage
                  creator_address := some operation.creator_address
                  origin_operation_id := some operation.id })
    (htyped : typedExecute cfg runVM operation.op operation.creator_address c3
              = (c4, some err)) :
    ∃ cF, execute_operation cfg runVM operation block_slot remaining_block_gas block_credits ctx
        = Except.ok (cF, remaining_block_gas - operation.get_gas_usage,
            Amount.saturating_add block_credits operation.get_total_fee)
      ∧ cF.ledger_changes = c1.ledger_changes
      ∧ cF.executed_ops = c1.executed_ops ++
          [(operation.id, ⟨operation.expire_period,
             operation.creator_address.get_thread cfg.thread_count⟩)]
      ∧ cF.async_pool_changes = c1.async_pool_changes
      ∧ cF.pos_changes = c1.pos_changes
      ∧ cF.created_addr_index = c1.created_addr_index
      ∧ cF.stack = c1.stack
      ∧ cF.unsafe_rng = c1.unsafe_rng
      ∧ cF.events = c1.events ++
          [{ c4.event_create (errorEventData ("runtime error when executing operation: " ++ err))
             with index_in_slot := c1.created_event_index }]
      ∧ cF.created_event_index = c1.created_event_index + 1
      ∧ (∃ e, alGet ctx.ledger_changes operation.creator_address = some e
            ∧ operation.get_total_fee ≤ e.balance
            ∧ cF.ledger_changes = alSet ctx.ledger_changes operation.creator_address
                ⟨e.balance - operation.get_total_fee, e.bytecode⟩) := by
  subst hc3
  unfold execute_operation
  rw [if_neg (not_not_intro hval), if_neg (by omega)]
  dsimp only
  rw [if_neg (fun hne => hne hthread), if_neg (by simp [hnotexec]), hfee]
  dsimp only
  rw [htyped]
  dsimp only
  refine ⟨_, rfl, ?_⟩
  rw [reset_to_snapshot_fields]
  simp only [ExecutionContext.get_snapshot, ExecutionContext.insert_executed_op, true_and,
    and_true]
  obtain ⟨l1, hdb, hc1⟩ := transfer_debit_spec ctx operation.creator_address
    operation.get_total_fee c1 hfee
  obtain ⟨e, hget, hle, hl1⟩ := ledgerDebit_spec ctx.ledger_changes operation.creator_address
    operation.get_total_fee l1 hdb
  exact ⟨e, hget, hle, by rw [hc1]; exact hl1⟩

/-- A concrete failing operation used by the C2 witness: address 1 (thread 1
of 2) sends 5 coins to the unknown address 99 with a fee of 1; the fee debit
succeeds and the transaction itself fails. -/
def w2op : WrappedOperation where
  creator_address := 1
  id := 42
  expire_period := 6
  fee := 1
  op := OperationType.Transaction 99 5

/-- C2 witness at concrete inputs over `sampleCtx`. -/
theorem c2_failed_operation_keeps_fee_and_mark_witness :
    ∃ cF, execute_operation wCfg (fun _ c => (c, none)) w2op ⟨5, 1⟩ 1000 0 sampleCtx
        = Except.ok (cF, 1000 - w2op.get_gas_usage, Amount.saturating_add 0 w2op.get_total_fee)
      ∧ cF.executed_ops = sampleCtx.executed_ops ++ [(42, ⟨6, 1⟩)]
      ∧ cF.created_event_index = sampleCtx.created_event_index + 1
      ∧ (∃ e, alGet sampleCtx.ledger_changes 1 = some e
            ∧ w2op.get_total_fee ≤ e.balance
            ∧ cF.ledger_changes = alSet sampleCtx.ledger_changes 1
                ⟨e.balance - w2op.get_total_fee, e.bytecode⟩) := by
  obtain ⟨cF, hrun, hledger, hops, hpool, hpos, haddr, hstack, hrng, hevents, hcount, hdebit⟩ :=
    c2_failed_operation_keeps_fee_and_mark wCfg (fun _ c => (c, none)) w2op ⟨5, 1⟩ 1000 0
      sampleCtx
      ({ sampleCtx with ledger_changes := alSet sampleCtx.ledger_changes 1 ⟨99, []⟩ })
      ({ ({ sampleCtx with ledger_changes := alSet sampleCtx.ledger_changes 1 ⟨99, []⟩ }
            : ExecutionContext).insert_executed_op w2op.id
              ⟨w2op.expire_period, w2op.creator_address.get_thread wCfg.thread_count⟩ with
          gas_price := w2op.get_gas_price
          max_gas := w2op.get_gas_usage
          creator_address := some w2op.creator_address
          origin_operation_id := some w2op.id })
      ({ ({ ({ sampleCtx with ledger_changes := alSet sampleCtx.ledger_changes 1 ⟨99, []⟩ }
              : ExecutionContext).insert_executed_op w2op.id
                ⟨w2op.expire_period, w2op.creator_address.get_thread wCfg.thread_count⟩ with
            gas_price := w2op.get_gas_price
            max_gas := w2op.get_gas_usage
            creator_address := some w2op.creator_address
            origin_operation_id := some w2op.id } : ExecutionContext) with
          stack := [⟨1, 5, [1], none⟩] })
      "transfer of coins failed: crediting address not found"
      (by constructor <;> decide) (by decide) (by decide) (by decide) (by rfl) rfl (by rfl)
  exact ⟨cF, hrun, hops, hcount, hdebit⟩

/-! ## C3: async message failures reset and reimburse -/

/-- C3. For an async message taken at a slot: when the destination bytecode
is missing, the data is not valid UTF-8, the coin credit to the destination
fails, or the VM returns an error, `execute_async_message` resets the context
to the snapshot taken before processing the message and reimburses the
message coins to the sender with an unchecked transfer; the final conjunct
states that such a failure result keeps every other view and counter at its
pre-message value, appends exactly one error event, and changes the ledger
only by the reimbursement credit. -/
theorem c3_async_message_failure_reimbursement
    (isUtf8 : List Nat → Option String) (runVM : VmRun)
    (message : AsyncMessage) (ctx ctxM : ExecutionContext)
    (hM : ctxM = { ctx with
        max_gas := message.max_gas
        gas_price := message.gas_price
        creator_address := none
        stack := [⟨message.sender, message.coins, [message.sender], none⟩,
                  ⟨message.destination, message.coins, [message.destination], none⟩] }) :
    (execute_async_message isUtf8 runVM message none ctx
      = ((ctxM.reset_to_snapshot ctx.get_snapshot
            (some "no target bytecode found")).cancel_async_message message,
         some "no target bytecode found"))
    ∧ (∀ bc, isUtf8 message.data = none →
        execute_async_message isUtf8 runVM message (some bc) ctx
          = ((ctxM.reset_to_snapshot ctx.get_snapshot
                (some "message data does not convert to utf-8")).cancel_async_message message,
             some "message data does not convert to utf-8"))
    ∧ (∀ bc d e, isUtf8 message.data = some d →
        ctxM.transfer_coins none (some message.destination) message.coins false
          = Except.error e →
        execute_async_message isUtf8 runVM message (some bc) ctx
          = (ExecutionContext.cancel_async_message
               (ctxM.reset_to_snapshot ctx.get_snapshot
                 (some ("could not credit coins to target of async execution: " ++ e))) message,
             some ("could not credit coins to target of async execution: " ++ e)))
    ∧ (∀ bc d ctxC ctxV e, isUtf8 message.data = some d →
        ctxM.transfer_coins none (some message.destination) message.coins false
          = Except.ok ctxC →
        runVM (VmCall.runFunction bc message.max_gas message.handler d) ctxC
          = (ctxV, some e) →
        execute_async_message isUtf8 runVM message (some bc) ctx
          = (ExecutionContext.cancel_async_message
               (ctxV.reset_to_snapshot ctx.get_snapshot
                 (some ("async message runtime execution error: " ++ e))) message,
             some ("async message runtime execution error: " ++ e)))
    ∧ (∀ (cpre : ExecutionContext) (err : String),
        ((cpre.reset_to_snapshot ctx.get_snapshot (some err)).cancel_async_message
            message).async_pool_changes = ctx.async_pool_changes
        ∧ ((cpre.reset_to_snapshot ctx.get_snapshot (some err)).cancel_async_message
            message).pos_changes = ctx.pos_changes
        ∧ ((cpre.reset_to_snapshot ctx.get_snapshot (some err)).cancel_async_message
            message).executed_ops = ctx.executed_ops
        ∧ ((cpre.reset_to_snapshot ctx.get_snapshot (some err)).cancel_async_message
            message).stack = ctx.stack
        ∧ ((cpre.reset_to_snapshot ctx.get_snapshot (some err)).cancel_async_message
            message).created_addr_index = ctx.created_addr_index
        ∧ ((cpre.reset_to_snapshot ctx.get_snapshot (some err)).cancel_async_message
            message).unsafe_rng = ctx.unsafe_rng
        ∧ ((cpre.reset_to_snapshot ctx.get_snapshot (some err)).cancel_async_message
            message).created_event_index = ctx.created_event_index + 1
        ∧ ((cpre.reset_to_snapshot ctx.get_snapshot (some err)).cancel_async_message
            message).events = ctx.events ++
              [{ cpre.event_create (errorEventData err)
                 with index_in_slot := ctx.created_event_index }]
        ∧ ((cpre.reset_to_snapshot ctx.get_snapshot (some err)).cancel_async_message
            message).ledger_changes =
              (match ledgerCredit ctx.ledger_changes message.sender message.coins with
               | Except.ok l2 => l2
               | Except.error _ => ctx.ledger_changes)) := by
  subst hM
  refine ⟨?_, ?_, ?_, ?_, ?_⟩
  · unfold execute_async_message
    cases hu : isUtf8 message.data <;> rfl
  · intro bc hu
    unfold execute_async_message
    rw [hu]
    rfl
  · intro bc d e hu hcredit
    unfold execute_async_message
    rw [hu]
    dsimp only
    rw [hcredit]
  · intro bc d ctxC ctxV e hu hcredit hvm
    unfold execute_async_message
    rw [hu]
    dsimp only
    rw [hcredit]
    dsimp only
    rw [hvm]
  · intro cpre err
    rw [cancel_async_message_spec, reset_to_snapshot_fields]
    simp only [ExecutionContext.get_snapshot, true_and, and_true]

/-- A concrete async message used by the C3 witness: sender 1, destination
99 (absent from the ledger, hence no bytecode), five coins. -/
def w3msg : AsyncMessage where
  emission_slot := ⟨1, 0⟩
  emission_index := 0
  sender := 1
  destination := 99
  handler := "on_message"
  max_gas := 10
  gas_price := 1
  coins := 5
  validity_start := ⟨1, 0⟩
  validity_end := ⟨3, 0⟩
  data := [104, 105]

/-- C3 witness at concrete inputs: missing destination bytecode over
`sampleCtx`; the sender is reimbursed and only one error event appears. -/
theorem c3_async_message_failure_reimbursement_witness :
    (execute_async_message (fun _ => some "hi") (fun _ c => (c, none)) w3msg none sampleCtx
      = ((({ sampleCtx with
              max_gas := w3msg.max_gas
              gas_price := w3msg.gas_price
              creator_address := none
              stack := [⟨w3msg.sender, w3msg.coins, [w3msg.sender], none⟩,
                        ⟨w3msg.destination, w3msg.coins, [w3msg.destination], none⟩] }
            : ExecutionContext).reset_to_snapshot sampleCtx.get_snapshot
              (some "no target bytecode found")).cancel_async_message w3msg,
         some "no target bytecode found"))
    ∧ (execute_async_message (fun _ => some "hi") (fun _ c => (c, none)) w3msg none
        sampleCtx).1.ledger_changes =
        (match ledgerCredit sampleCtx.ledger_changes w3msg.sender w3msg.coins with
         | Except.ok l2 => l2
         | Except.error _ => sampleCtx.ledger_changes)
    ∧ (execute_async_message (fun _ => some "hi") (fun _ c => (c, none)) w3msg none
        sampleCtx).1.created_event_index = sampleCtx.created_event_index + 1 := by
  obtain ⟨h1, -, -, -, h5⟩ := c3_async_message_failure_reimbursement
    (fun _ => some "hi") (fun _ c => (c, none)) w3msg sampleCtx
    ({ sampleCtx with
        max_gas := w3msg.max_gas
        gas_price := w3msg.gas_price
        creator_address := none
        stack := [⟨w3msg.sender, w3msg.coins, [w3msg.sender], none⟩,
                  ⟨w3msg.destination, w3msg.coins, [w3msg.destination], none⟩] }) rfl
  obtain ⟨-, -, -, -, -, -, hcount, -, hledger⟩ := h5
    ({ sampleCtx with
        max_gas := w3msg.max_gas
        gas_price := w3msg.gas_price
        creator_address := none
        stack := [⟨w3msg.sender, w3msg.coins, [w3msg.sender], none⟩,
                  ⟨w3msg.destination, w3msg.coins, [w3msg.destination], none⟩] })
    "no target bytecode found"
  refine ⟨h1, ?_, ?_⟩
  · rw [h1]
    exact hledger
  · rw [h1]
    exact hcount

/-! ## C1: slot execution determinism -/

/-- C1. Two runs of `execute_slot` from identical final-state and
active-history contents (the composed views), the same slot, the same
optional block target, the same selector output, and the same external
primitives (hash, UTF-8 decoder, VM) produce identical `state_changes` and
identical events in the same order; moreover the execution context both runs
start from derives its RNG state from the hash (BLAKE3) of the slot key
bytes, the active-mode byte `1`, and the optional block id bytes. -/
theorem c1_execute_slot_deterministic
    (cfg1 cfg2 : ExecutionConfig) (hashOf1 hashOf2 : List Nat → Nat)
    (isUtf81 isUtf82 : List Nat → Option String) (runVM1 runVM2 : VmRun)
    (producer1 producer2 : Addr) (views1 views2 : InitialViews)
    (slot1 slot2 : Slot) (target1 target2 : Option BlockTarget)
    (hcfg : cfg1 = cfg2) (hhash : hashOf1 = hashOf2) (hutf : isUtf81 = isUtf82)
    (hvm : runVM1 = runVM2) (hprod : producer1 = producer2) (hviews : views1 = views2)
    (hslot : slot1 = slot2) (htarget : target1 = target2) :
    ((execute_slot cfg1 hashOf1 isUtf81 runVM1 producer1 views1 slot1 target1).state_changes
      = (execute_slot cfg2 hashOf2 isUtf82 runVM2 producer2 views2 slot2 target2).state_changes)
    ∧ ((execute_slot cfg1 hashOf1 isUtf81 runVM1 producer1 views1 slot1 target1).events
      = (execute_slot cfg2 hashOf2 isUtf82 runVM2 producer2 views2 slot2 target2).events)
    ∧ ((ExecutionContext.active_slot hashOf1 slot1
          (target1.map (fun t => t.block_id)) views1).unsafe_rng
      = hashOf1 (slot1.to_bytes_key ++ [1] ++
          (match target1.map (fun t => t.block_id) with
           | some block_id => block_id
           | none => []))) := by
  subst hcfg hhash hutf hvm hprod hviews hslot htarget
  exact ⟨rfl, rfl, rfl⟩

/-- C1 witness: the two runs coincide at a concrete miss slot over
`sampleViews`, and the RNG seed bytes are the slot key, the byte 1 and no
block id bytes. -/
theorem c1_execute_slot_deterministic_witness :
    ((execute_slot wCfg (fun l => l.length) (fun _ => none) (fun _ c => (c, none)) 1
        sampleViews ⟨2, 0⟩ none).state_changes
      = (execute_slot wCfg (fun l => l.length) (fun _ => none) (fun _ c => (c, none)) 1
          sampleViews ⟨2, 0⟩ none).state_changes)
    ∧ ((execute_slot wCfg (fun l => l.length) (fun _ => none) (fun _ c => (c, none)) 1
        sampleViews ⟨2, 0⟩ none).events
      = (execute_slot wCfg (fun l => l.length) (fun _ => none) (fun _ c => (c, none)) 1
          sampleViews ⟨2, 0⟩ none).events)
    ∧ ((ExecutionContext.active_slot (fun l => l.length) ⟨2, 0⟩
          ((none : Option BlockTarget).map (fun t => t.block_id)) sampleViews).unsafe_rng
      = (fun l => l.length) ((⟨2, 0⟩ : Slot).to_bytes_key ++ [1] ++
          (match (none : Option BlockTarget).map (fun t => t.block_id) with
           | some block_id => block_id
           | none => []))) :=
  c1_execute_slot_deterministic wCfg wCfg (fun l => l.length) (fun l => l.length)
    (fun _ => none) (fun _ => none) (fun _ c => (c, none)) (fun _ c => (c, none)) 1 1
    sampleViews sampleViews ⟨2, 0⟩ ⟨2, 0⟩ none none
    rfl rfl rfl rfl rfl rfl rfl rfl

end Massa
